import Mathlib

/-!
Verification development for the inbound-event reliability layer of the
gp-data-v4 repository: shallow embedding of the rate limiter
(src/utils/rate_limiter.py), circuit breaker (src/utils/circuit_breaker.py),
message buffer (src/message_queue/buffer.py), in-memory work queue
(src/message_queue/memory.py, base.py) and queue worker
(src/message_queue/worker.py).

Timestamps are modelled as integers counting microseconds, which is exactly
the resolution of Python `datetime` values; a Python `timedelta(seconds=s)`
becomes `s * 1000000` microseconds.  `(d).total_seconds()` followed by
Python `int(...)` (truncation toward zero) becomes `Int.tdiv d 1000000`.
-/

namespace GPDataV4

/-- A duration of `n` whole seconds, in microseconds
(`timedelta(seconds=n)`); time instants and durations are integer
microsecond counts (Python datetime resolution). -/
def seconds (n : ℤ) : ℤ := n * 1000000

/-- Python `int(d.total_seconds())` for a `timedelta` of `d` microseconds:
division of exact values truncating toward zero. -/
def intTotalSeconds (d : ℤ) : ℤ := Int.tdiv d 1000000

/-- Mathematical `ceil(d.total_seconds())` for a `timedelta` of `d`
microseconds; used only to state the specification's claimed formula. -/
def ceilTotalSeconds (d : ℤ) : ℤ := -((-d).fdiv 1000000)

/-! ## Rate limiter (src/utils/rate_limiter.py, InMemoryRateLimiter) -/

/-- Result record of `check_rate_limit` (dataclass RateLimitResult).
`retryAfter` is in whole seconds, as in the source. -/
structure RateLimitResult where
  allowed : Bool
  remaining : Int
  resetAt : ℤ
  retryAfter : Option Int := none
  reason : Option String := none
deriving Repr, DecidableEq

/-- Configuration fields of `InMemoryRateLimiter.__init__`, with the window
durations converted to microseconds. -/
structure RateLimiterConfig where
  maxRequests : Nat := 10
  windowSeconds : ℤ := seconds 3600
  spikeThreshold : Nat := 5
  spikeWindowSeconds : ℤ := seconds 60
  banDurationSeconds : ℤ := seconds 3600
deriving Repr, DecidableEq

/-- `InMemoryRateLimiter.check_rate_limit` for a single key: the per-key
window (`self._requests[lead_id]`) is the list of admitted timestamps; the
function returns the result together with the updated window. -/
def check_rate_limit (cfg : RateLimiterConfig) (window : List ℤ)
    (now : ℤ) : RateLimitResult × List ℤ :=
  let windowStart := now - cfg.windowSeconds
  let pruned := window.filter (fun ts => decide (windowStart < ts))
  let requestCount := pruned.length
  if cfg.maxRequests ≤ requestCount then
    let oldestRequest := (pruned.min?).getD 0
    let resetAt := oldestRequest + cfg.windowSeconds
    let retryAfter := intTotalSeconds (resetAt - now)
    ({ allowed := false
       remaining := 0
       resetAt := resetAt
       retryAfter := some (max retryAfter 1)
       reason := some ("Rate limit exceeded: " ++ toString requestCount ++ "/" ++
         toString cfg.maxRequests ++ " requests") }, pruned)
  else
    let newWindow := pruned ++ [now]
    ({ allowed := true
       remaining := (cfg.maxRequests : Int) - (requestCount + 1)
       resetAt := now + cfg.windowSeconds }, newWindow)

/-- `InMemoryRateLimiter.detect_spike` for a single key (read-only). -/
def detect_spike (cfg : RateLimiterConfig) (window : List ℤ)
    (now : ℤ) : Bool :=
  let spikeWindowStart := now - cfg.spikeWindowSeconds
  let recentRequests := window.filter (fun ts => decide (spikeWindowStart < ts))
  cfg.spikeThreshold ≤ recentRequests.length

/-- Sequence of `check_rate_limit` calls against one key, threading the
window; returns the result of every call together with the final window. -/
def runChecks (cfg : RateLimiterConfig) (window : List ℤ) :
    List ℤ → List RateLimitResult × List ℤ
  | [] => ([], window)
  | t :: ts =>
    let step := check_rate_limit cfg window t
    let rest := runChecks cfg step.2 ts
    (step.1 :: rest.1, rest.2)

/-! ## Circuit breaker (src/utils/circuit_breaker.py, CircuitBreaker)

The Python class runs each operation under an asyncio lock, releasing it only
while the protected coroutine `func` executes; the embedding models each
operation (`call`, `reset`, `force_open`) as an atomic step on the breaker
state, with the outcome of `func` supplied as a parameter. -/

/-- CircuitState enum: CLOSED / OPEN / HALF_OPEN. -/
inductive CircuitState where
  | closed
  | open_
  | halfOpen
deriving Repr, DecidableEq

/-- Dataclass CircuitStats. -/
structure CircuitStats where
  consecutiveFailures : Nat := 0
  totalFailures : Nat := 0
  totalSuccesses : Nat := 0
  lastFailureTime : Option ℤ := none
  lastSuccessTime : Option ℤ := none
  openedAt : Option ℤ := none
  stateChanges : Nat := 0
deriving Repr, DecidableEq

/-- State of a CircuitBreaker instance (configuration plus mutable fields). -/
structure CircuitBreaker where
  failureThreshold : Nat
  recoveryTimeout : ℤ
  halfOpenMaxCalls : Nat
  state : CircuitState := .closed
  stats : CircuitStats := {}
  halfOpenCalls : Nat := 0
deriving Repr, DecidableEq

/-- A state change performed by `CircuitBreaker._transition_to` (old state,
new state). -/
structure StateChange where
  src : CircuitState
  dst : CircuitState
deriving Repr, DecidableEq

/-- `CircuitBreaker._transition_to`: switch state, count the change, and
stamp `opened_at` when the new state is OPEN. -/
def CircuitBreaker.transitionTo (b : CircuitBreaker) (newState : CircuitState)
    (now : ℤ) : CircuitBreaker × StateChange :=
  let stats := { b.stats with
    stateChanges := b.stats.stateChanges + 1
    openedAt := if newState = .open_ then some now else b.stats.openedAt }
  ({ b with state := newState, stats := stats }, ⟨b.state, newState⟩)

/-- `CircuitBreaker._check_state_transition`: while OPEN with a recorded
`opened_at`, move to HALF_OPEN once the recovery timeout has elapsed,
resetting the half-open probe counter. -/
def CircuitBreaker.checkStateTransition (b : CircuitBreaker) (now : ℤ) :
    CircuitBreaker × List StateChange :=
  if b.state = .open_ then
    match b.stats.openedAt with
    | none => (b, [])
    | some openedAt =>
      if b.recoveryTimeout ≤ now - openedAt then
        let step := b.transitionTo .halfOpen now
        ({ step.1 with halfOpenCalls := 0 }, [step.2])
      else (b, [])
  else (b, [])

/-- `CircuitBreaker._record_success`: zero the consecutive-failure counter,
bump totals, and close the circuit if it was HALF_OPEN. -/
def CircuitBreaker.recordSuccess (b : CircuitBreaker) (now : ℤ) :
    CircuitBreaker × List StateChange :=
  let b := { b with stats := { b.stats with
    consecutiveFailures := 0
    totalSuccesses := b.stats.totalSuccesses + 1
    lastSuccessTime := some now } }
  if b.state = .halfOpen then
    let step := b.transitionTo .closed now
    (step.1, [step.2])
  else (b, [])

/-- `CircuitBreaker._record_failure`: bump failure counters; reopen from
HALF_OPEN, or open from any other state once the threshold is reached. -/
def CircuitBreaker.recordFailure (b : CircuitBreaker) (now : ℤ) :
    CircuitBreaker × List StateChange :=
  let b := { b with stats := { b.stats with
    consecutiveFailures := b.stats.consecutiveFailures + 1
    totalFailures := b.stats.totalFailures + 1
    lastFailureTime := some now } }
  if b.state = .halfOpen then
    let step := b.transitionTo .open_ now
    (step.1, [step.2])
  else if b.failureThreshold ≤ b.stats.consecutiveFailures then
    let step := b.transitionTo .open_ now
    (step.1, [step.2])
  else (b, [])

/-- Outcome of the protected coroutine `func`, when it is invoked: it either
returns or raises. -/
inductive FnOutcome where
  | success
  | failure
deriving Repr, DecidableEq

/-- What `CircuitBreaker.call` does for its caller: return `func`'s result,
return `fallback()`, or re-raise the error `func` raised. -/
inductive CallOutcome where
  | fnResult
  | fallbackResult
  | errorRaised
deriving Repr, DecidableEq

/-- Result of one `CircuitBreaker.call` operation: the new breaker state,
what the caller observes, whether `func` was invoked, and the state changes
performed. -/
structure CallStep where
  breaker : CircuitBreaker
  outcome : CallOutcome
  fnInvoked : Bool
  changes : List StateChange
deriving Repr, DecidableEq

/-- `CircuitBreaker.call`: check the timed OPEN→HALF_OPEN transition; while
OPEN return the fallback without invoking `func`; while HALF_OPEN with the
probe budget exhausted likewise; otherwise take a probe slot when HALF_OPEN,
invoke `func`, record the outcome, and re-raise on failure. -/
def CircuitBreaker.call (b : CircuitBreaker) (now : ℤ) (fn : FnOutcome) :
    CallStep :=
  let checked := b.checkStateTransition now
  let b1 := checked.1
  if b1.state = .open_ then
    ⟨b1, .fallbackResult, false, checked.2⟩
  else if b1.state = .halfOpen ∧ b1.halfOpenMaxCalls ≤ b1.halfOpenCalls then
    ⟨b1, .fallbackResult, false, checked.2⟩
  else
    let b2 := if b1.state = .halfOpen then
      { b1 with halfOpenCalls := b1.halfOpenCalls + 1 } else b1
    match fn with
    | .success =>
      let rec_ := b2.recordSuccess now
      ⟨rec_.1, .fnResult, true, checked.2 ++ rec_.2⟩
    | .failure =>
      let rec_ := b2.recordFailure now
      ⟨rec_.1, .errorRaised, true, checked.2 ++ rec_.2⟩

/-- `CircuitBreaker.call_with_fallback`: run `call` and catch any raised
error, returning the fallback instead. -/
def CircuitBreaker.callWithFallback (b : CircuitBreaker) (now : ℤ)
    (fn : FnOutcome) : CallStep :=
  let step := b.call now fn
  if step.outcome = .errorRaised then { step with outcome := .fallbackResult }
  else step

/-- `CircuitBreaker.reset`: manual transition to CLOSED, zeroing the
consecutive-failure and half-open counters. -/
def CircuitBreaker.reset (b : CircuitBreaker) (now : ℤ) :
    CircuitBreaker × List StateChange :=
  let step := b.transitionTo .closed now
  ({ step.1 with
      stats := { step.1.stats with consecutiveFailures := 0 }
      halfOpenCalls := 0 }, [step.2])

/-- `CircuitBreaker.force_open`: manual transition to OPEN. -/
def CircuitBreaker.forceOpen (b : CircuitBreaker) (now : ℤ) :
    CircuitBreaker × List StateChange :=
  let step := b.transitionTo .open_ now
  (step.1, [step.2])

/-- One operation against a CircuitBreaker instance. -/
inductive CBOp where
  | call (now : ℤ) (fn : FnOutcome)
  | reset (now : ℤ)
  | forceOpen (now : ℤ)
deriving Repr, DecidableEq

/-- Apply an operation, returning the new breaker and the state changes it
performed. -/
def CBOp.run (b : CircuitBreaker) : CBOp → CircuitBreaker × List StateChange
  | .call now fn => let s := b.call now fn; (s.breaker, s.changes)
  | .reset now => b.reset now
  | .forceOpen now => b.forceOpen now

/-- The timestamp at which an operation happens. -/
def CBOp.time : CBOp → ℤ
  | .call now _ => now
  | .reset now => now
  | .forceOpen now => now

/-- Whether, from breaker `b`, the operation is a `call` that invoked `func`
and observed the given outcome (i.e. recorded a success / a failure). -/
def CBOp.invokedWith (b : CircuitBreaker) (op : CBOp) (oc : FnOutcome) : Bool :=
  match op with
  | .call now fn => decide (fn = oc) && (b.call now fn).fnInvoked
  | _ => false

/-- The recovery timeout has elapsed since `opened_at` at time `now`. -/
def CircuitBreaker.openElapsed (b : CircuitBreaker) (now : ℤ) : Bool :=
  match b.stats.openedAt with
  | some openedAt => decide (b.recoveryTimeout ≤ now - openedAt)
  | none => false

/-- The transition rules asserted by the specification, as a predicate on a
state change `tr` performed by operation `op` from breaker `b`:
Closed→Open only by a recorded failure reaching the threshold; Open→HalfOpen
only when the recovery timeout has elapsed; HalfOpen→Closed only on a probe
success; HalfOpen→Open only on a probe failure. -/
def claimedChange (b : CircuitBreaker) (op : CBOp) (tr : StateChange) : Bool :=
  (decide (tr = ⟨.closed, .open_⟩) && CBOp.invokedWith b op .failure
    && decide (b.failureThreshold ≤ (CBOp.run b op).1.stats.consecutiveFailures))
  || (decide (tr = ⟨.open_, .halfOpen⟩) && b.openElapsed op.time)
  || (decide (tr = ⟨.halfOpen, .closed⟩) && CBOp.invokedWith b op .success)
  || (decide (tr = ⟨.halfOpen, .open_⟩) && CBOp.invokedWith b op .failure)

/-- The specification's invariant for one operation, literally: every proper
state change performed by the operation is among the claimed transitions,
and a recorded success zeroes `consecutive_failures`. -/
def claimC2holds (b : CircuitBreaker) (op : CBOp) : Bool :=
  ((CBOp.run b op).2.filter (fun tr => decide (tr.src ≠ tr.dst))).all
    (claimedChange b op)
  && (if CBOp.invokedWith b op .success then
        decide ((CBOp.run b op).1.stats.consecutiveFailures = 0)
      else true)

/-- Running a list of timestamped `call` operations. -/
def CircuitBreaker.runCalls (b : CircuitBreaker) :
    List (ℤ × FnOutcome) → CircuitBreaker
  | [] => b
  | c :: rest => ((b.call c.1 c.2).breaker).runCalls rest

/-- How many of a list of `call` operations are probes: calls made while the
breaker is HALF_OPEN that actually invoke `func`. -/
def CircuitBreaker.probeCount (b : CircuitBreaker) :
    List (ℤ × FnOutcome) → Nat
  | [] => 0
  | c :: rest =>
    (if b.state = .halfOpen ∧ (b.call c.1 c.2).fnInvoked = true then 1 else 0)
    + ((b.call c.1 c.2).breaker).probeCount rest

/-! ## Message buffer (src/message_queue/buffer.py, MessageBuffer)

Groups are an insertion-ordered association list, mirroring a Python dict.
The per-group `flush_task` timer handle is not part of the data model here:
in the sequential embedding a timer expiry is the `scheduledFlush` operation
and `add` cancelling the previous timer means no other flush interleaves.
The flush callback `on_flush` may raise; it is modelled as a function into
`Except String Unit`, and every operation returns the callback error it
propagates (if any) alongside its other results. -/

/-- Dataclass BufferedMessage. -/
structure BufferedMessage where
  body : String
  messageSid : String
  timestamp : ℤ
deriving Repr, DecidableEq

/-- Dataclass LeadBuffer (without the `flush_task` handle). -/
structure LeadBuffer where
  phone : String
  profileName : Option String
  messages : List BufferedMessage := []
  createdAt : ℤ
deriving Repr, DecidableEq

/-- Configuration and state of a MessageBuffer instance. -/
structure MessageBuffer where
  bufferSeconds : ℤ
  maxMessages : Nat
  separator : String
  buffers : List (String × LeadBuffer) := []
deriving Repr, DecidableEq

/-- The flush callback `on_flush(phone, combined_body, first_message_sid,
profile_name)`; `.error e` models the callback raising. -/
abbrev FlushCallback := String → String → String → Option String → Except String Unit

/-- The unit of work emitted by one flush: the arguments the callback was
invoked with. -/
structure FlushEmit where
  phone : String
  combinedBody : String
  firstSid : String
  profileName : Option String
deriving Repr, DecidableEq

/-- Lookup in an insertion-ordered dict. -/
def dictGet (key : String) : List (String × LeadBuffer) → Option LeadBuffer
  | [] => none
  | p :: rest => if p.1 = key then some p.2 else dictGet key rest

/-- `dict[key] = value`: replace in place, or append a new key. -/
def dictSet (key : String) (v : LeadBuffer) :
    List (String × LeadBuffer) → List (String × LeadBuffer)
  | [] => [(key, v)]
  | p :: rest => if p.1 = key then (key, v) :: rest else p :: dictSet key v rest

/-- `dict.pop(key, None)`: remove the key if present. -/
def dictPop (key : String) :
    List (String × LeadBuffer) → List (String × LeadBuffer)
  | [] => []
  | p :: rest => if p.1 = key then rest else p :: dictPop key rest

/-- Python truthiness of an optional string (`if profile_name:`): false for
`None` and for the empty string. -/
def pyTruthy : Option String → Bool
  | none => false
  | some s => decide (s ≠ "")

/-- `MessageBuffer._flush_lead`: pop the group; if it held messages, join
their bodies with the separator and invoke the callback with the first
message's SID and the group's profile name.  The callback's error, if any,
is re-raised to the caller; the pop has already happened either way.
Returns (new state, callback invocation if one was made, raised error). -/
def MessageBuffer.flushLead (cb : FlushCallback) (mb : MessageBuffer)
    (phone : String) : MessageBuffer × Option FlushEmit × Option String :=
  match dictGet phone mb.buffers with
  | none => (mb, none, none)
  | some leadBuffer =>
    let mb := { mb with buffers := dictPop phone mb.buffers }
    match leadBuffer.messages with
    | [] => (mb, none, none)
    | firstMsg :: _ =>
      let combinedBody :=
        String.intercalate mb.separator (leadBuffer.messages.map (·.body))
      let firstSid := firstMsg.messageSid
      let emit : FlushEmit := ⟨phone, combinedBody, firstSid, leadBuffer.profileName⟩
      match cb phone combinedBody firstSid leadBuffer.profileName with
      | .ok _ => (mb, some emit, none)
      | .error e => (mb, some emit, some e)

/-- `MessageBuffer._scheduled_flush` after its sleep ran to completion:
flush the group if it still exists; callback errors are logged and
swallowed, never re-raised from the background task. -/
def MessageBuffer.scheduledFlush (cb : FlushCallback) (mb : MessageBuffer)
    (phone : String) : MessageBuffer × Option FlushEmit :=
  if (dictGet phone mb.buffers).isSome then
    let step := mb.flushLead cb phone
    (step.1, step.2.1)
  else (mb, none)

/-- `MessageBuffer.add`: create the group if absent (remembering the given
profile name), append the message, update the profile name if the new one is
truthy, and force an immediate flush when `max_messages` is reached
(re-raising any callback error); otherwise a fresh flush timer is scheduled
(not part of the state). -/
def MessageBuffer.add (cb : FlushCallback) (mb : MessageBuffer)
    (phone body messageSid : String) (profileName : Option String)
    (now : ℤ) : MessageBuffer × Option FlushEmit × Option String :=
  let leadBuffer :=
    match dictGet phone mb.buffers with
    | some lb => lb
    | none => { phone := phone, profileName := profileName, createdAt := now }
  let leadBuffer := { leadBuffer with
    messages := leadBuffer.messages ++ [⟨body, messageSid, now⟩] }
  let leadBuffer :=
    if pyTruthy profileName then { leadBuffer with profileName := profileName }
    else leadBuffer
  let mb := { mb with buffers := dictSet phone leadBuffer mb.buffers }
  if mb.maxMessages ≤ leadBuffer.messages.length then
    mb.flushLead cb phone
  else
    (mb, none, none)

/-- `MessageBuffer.flush_all` over an explicit list of keys: flush each
still-live group in turn; a callback error propagates to the caller at once
(the remaining groups are not reached). -/
def MessageBuffer.flushAllFrom (cb : FlushCallback) (mb : MessageBuffer) :
    List String → MessageBuffer × List FlushEmit × Option String
  | [] => (mb, [], none)
  | phone :: rest =>
    if (dictGet phone mb.buffers).isSome then
      let step := mb.flushLead cb phone
      match step.2.2 with
      | some e => (step.1, step.2.1.toList, some e)
      | none =>
        let restRun := MessageBuffer.flushAllFrom cb step.1 rest
        (restRun.1, step.2.1.toList ++ restRun.2.1, restRun.2.2)
    else MessageBuffer.flushAllFrom cb mb rest

/-- `MessageBuffer.flush_all`: snapshot the live keys, then flush each. -/
def MessageBuffer.flushAll (cb : FlushCallback) (mb : MessageBuffer) :
    MessageBuffer × List FlushEmit × Option String :=
  MessageBuffer.flushAllFrom cb mb (mb.buffers.map (·.1))

/-- `MessageBuffer.get_pending_count`. -/
def MessageBuffer.getPendingCount (mb : MessageBuffer) : Nat :=
  mb.buffers.length

/-! ## Work queue (src/message_queue/base.py and memory.py, InMemoryQueue)

`_messages` is an insertion-ordered id → message dict; `_pending_queue` is
the FIFO of ids inside the asyncio.Queue; `_processing` / `_completed` /
`_failed` are sets of ids; `_dead_letter` is a dict whose values alias the
objects in `_messages`, so it is represented by its (ordered) key set, the
message content being `_messages[id]`. -/

/-- MessageStatus enum. -/
inductive MessageStatus where
  | pending
  | processing
  | completed
  | failed
  | deadLetter
deriving Repr, DecidableEq

/-- Pydantic model QueuedMessage. -/
structure QueuedMessage where
  id : String
  phone : String
  body : String
  profileName : Option String := none
  messageSid : String
  status : MessageStatus := .pending
  retryCount : Nat := 0
  maxRetries : Nat := 5
  createdAt : ℤ
  scheduledAt : ℤ
  error : Option String := none
deriving Repr, DecidableEq

/-- Pydantic model QueueMetrics.  The two derived ratios are exact
rationals. -/
structure QueueMetrics where
  pending : Nat := 0
  processing : Nat := 0
  completed : Nat := 0
  failed : Nat := 0
  deadLetter : Nat := 0
  avgProcessingTimeMs : ℚ := 0
  errorRate : ℚ := 0
deriving Repr, DecidableEq

/-- Lookup in the `_messages` dict. -/
def msgGet (id : String) : List (String × QueuedMessage) → Option QueuedMessage
  | [] => none
  | p :: rest => if p.1 = id then some p.2 else msgGet id rest

/-- `self._messages[id] = message`: replace in place, or append. -/
def msgSet (id : String) (m : QueuedMessage) :
    List (String × QueuedMessage) → List (String × QueuedMessage)
  | [] => [(id, m)]
  | p :: rest => if p.1 = id then (id, m) :: rest else p :: msgSet id m rest

/-- `set.add(x)` on an id set kept as an ordered duplicate-free list. -/
def setAdd (id : String) (s : List String) : List String :=
  if id ∈ s then s else s ++ [id]

/-- `set.discard(x)` / removal of one id. -/
def setDiscard (id : String) (s : List String) : List String :=
  s.filter (fun x => decide (x ≠ id))

/-- State of an InMemoryQueue instance. -/
structure QueueState where
  messages : List (String × QueuedMessage) := []
  pendingQueue : List String := []
  processing : List String := []
  completed : List String := []
  failed : List String := []
  deadLetter : List String := []
  processingTimes : List ℤ := []
deriving Repr, DecidableEq

/-- `InMemoryQueue.__init__`. -/
def emptyQueue : QueueState := {}

/-- The retry delay schedule `self._retry_delays`, in seconds:
1 min, 5 min, 15 min, 1 h, 6 h. -/
def retryDelaySeconds : List ℤ := [60, 300, 900, 3600, 21600]

/-- The retry delay schedule converted to microsecond durations. -/
def retryDelays : List ℤ := retryDelaySeconds.map seconds

/-- A freshly constructed QueuedMessage with the model defaults
(status PENDING, no retries yet, `created_at = scheduled_at = now`), as the
webhook/buffer call sites build them. -/
def newMessage (id phone body messageSid : String)
    (profileName : Option String) (maxRetries : Nat) (now : ℤ) :
    QueuedMessage :=
  { id := id, phone := phone, body := body, messageSid := messageSid
    profileName := profileName, maxRetries := maxRetries
    createdAt := now, scheduledAt := now }

/-- `InMemoryQueue.enqueue` (with the id already non-empty): store the
message and append its id to the pending FIFO. -/
def InMemoryQueue.enqueue (q : QueueState) (message : QueuedMessage) :
    QueueState :=
  { q with messages := msgSet message.id message q.messages
           pendingQueue := q.pendingQueue ++ [message.id] }

/-- `InMemoryQueue.dequeue`: pop the head id (None when the FIFO is empty);
drop ids with no stored message; re-queue a message whose `scheduled_at` is
still in the future; otherwise mark it PROCESSING and return it. -/
def InMemoryQueue.dequeue (q : QueueState) (now : ℤ) :
    QueueState × Option QueuedMessage :=
  match q.pendingQueue with
  | [] => (q, none)
  | messageId :: rest =>
    let q := { q with pendingQueue := rest }
    match msgGet messageId q.messages with
    | none => (q, none)
    | some message =>
      if now < message.scheduledAt then
        ({ q with pendingQueue := rest ++ [messageId] }, none)
      else
        let message := { message with status := .processing }
        ({ q with messages := msgSet messageId message q.messages
                  processing := setAdd messageId q.processing }, some message)

/-- `InMemoryQueue.complete`: mark COMPLETED, move the id from the
processing set to the completed set, and record a processing-time sample
(`now - created_at`, kept in microseconds here), retaining the last 1000. -/
def InMemoryQueue.complete (q : QueueState) (messageId : String)
    (now : ℤ) : QueueState :=
  match msgGet messageId q.messages with
  | none => q
  | some message =>
    let message := { message with status := .completed }
    let times := q.processingTimes ++ [now - message.createdAt]
    let times := if 1000 < times.length then times.drop (times.length - 1000)
      else times
    { q with messages := msgSet messageId message q.messages
             processing := setDiscard messageId q.processing
             completed := setAdd messageId q.completed
             processingTimes := times }

/-- `InMemoryQueue.fail`: record the error, bump `retry_count`, drop the id
from the processing set; then either schedule a retry on the backoff ladder
and re-queue as PENDING, or move the message to the dead-letter dict.  In
both branches the id is added to the failed set. -/
def InMemoryQueue.fail (q : QueueState) (messageId : String) (error : String)
    (now : ℤ) : QueueState :=
  match msgGet messageId q.messages with
  | none => q
  | some message =>
    let message := { message with
      error := some error, retryCount := message.retryCount + 1 }
    let q := { q with processing := setDiscard messageId q.processing }
    if message.retryCount ≤ message.maxRetries then
      let delayIndex := min (message.retryCount - 1) (retryDelays.length - 1)
      let delay := retryDelays.getD delayIndex 0
      let message := { message with
        scheduledAt := now + delay, status := .pending }
      { q with messages := msgSet messageId message q.messages
               pendingQueue := q.pendingQueue ++ [messageId]
               failed := setAdd messageId q.failed }
    else
      let message := { message with status := .deadLetter }
      { q with messages := msgSet messageId message q.messages
               deadLetter := setAdd messageId q.deadLetter
               failed := setAdd messageId q.failed }

/-- `InMemoryQueue.get_metrics`. -/
def InMemoryQueue.getMetrics (q : QueueState) : QueueMetrics :=
  let totalMessages := q.completed.length + q.failed.length
  let errorRate : ℚ :=
    if 0 < totalMessages then (q.failed.length : ℚ) / totalMessages * 100 else 0
  let avgTime : ℚ :=
    if q.processingTimes.length ≠ 0 then
      ((q.processingTimes.sum : ℚ) / q.processingTimes.length)
    else 0
  { pending := q.pendingQueue.length
    processing := q.processing.length
    completed := q.completed.length
    failed := q.failed.length
    deadLetter := q.deadLetter.length
    avgProcessingTimeMs := avgTime
    errorRate := errorRate }

/-- `InMemoryQueue.get_dead_letter_messages`. -/
def InMemoryQueue.getDeadLetterMessages (q : QueueState) (limit : Nat) :
    List QueuedMessage :=
  ((q.deadLetter.filterMap (fun id => msgGet id q.messages)).take limit)

/-- `InMemoryQueue.retry_dead_letter`: pop the id from the dead-letter dict
(no-op when absent); the popped message object (aliased in `_messages`) gets
`retry_count = 0`, status PENDING, `scheduled_at = now`, a cleared error,
and its id is re-queued. -/
def InMemoryQueue.retryDeadLetter (q : QueueState) (messageId : String)
    (now : ℤ) : QueueState :=
  if messageId ∈ q.deadLetter then
    let q := { q with deadLetter := setDiscard messageId q.deadLetter }
    match msgGet messageId q.messages with
    | none => { q with pendingQueue := q.pendingQueue ++ [messageId] }
    | some message =>
      let message := { message with
        retryCount := 0, status := .pending, scheduledAt := now, error := none }
      { q with messages := msgSet messageId message q.messages
               pendingQueue := q.pendingQueue ++ [messageId] }
  else q

/-! ## Worker (src/message_queue/worker.py, QueueWorker)

The per-item handler is `Callable[[QueuedMessage], Awaitable[None]]`; an
error it raises is caught and stringified, so it is modelled as a function
into `Except String Unit`. -/

/-- `QueueWorker._process_message` without the semaphore bookkeeping: invoke
the handler; on success mark the message completed, on any raised error mark
it failed with the stringified error.  The function is total: no error
escapes to the consumer loop. -/
def QueueWorker.processMessage (handler : QueuedMessage → Except String Unit)
    (q : QueueState) (message : QueuedMessage) (now : ℤ) : QueueState :=
  match handler message with
  | .ok _ => InMemoryQueue.complete q message.id now
  | .error e => InMemoryQueue.fail q message.id e now

/-! ## Shared lemmas about the circuit breaker -/

lemma checkStateTransition_not_open (b : CircuitBreaker) (now : ℤ)
    (h : b.state ≠ .open_) : b.checkStateTransition now = (b, []) := by
  simp [CircuitBreaker.checkStateTransition, h]

lemma checkStateTransition_not_elapsed (b : CircuitBreaker) (now : ℤ)
    (hel : b.openElapsed now = false) : b.checkStateTransition now = (b, []) := by
  unfold CircuitBreaker.checkStateTransition
  unfold CircuitBreaker.openElapsed at hel
  cases hoa : b.stats.openedAt with
  | none => simp [hoa]
  | some t =>
    simp [hoa] at hel
    by_cases hs : b.state = .open_ <;> simp [hs, hoa, hel]

lemma checkStateTransition_shape (b : CircuitBreaker) (now : ℤ) :
    b.checkStateTransition now = (b, []) ∨
    b.checkStateTransition now =
      ({ b with
          state := CircuitState.halfOpen
          stats := { b.stats with stateChanges := b.stats.stateChanges + 1 }
          halfOpenCalls := 0 }, [⟨b.state, .halfOpen⟩]) := by
  by_cases hs : b.state = .open_
  · cases hoa : b.stats.openedAt with
    | none => left; simp [CircuitBreaker.checkStateTransition, hs, hoa]
    | some t =>
      by_cases hel : b.recoveryTimeout ≤ now - t
      · right
        simp [CircuitBreaker.checkStateTransition, hs, hoa, hel,
          CircuitBreaker.transitionTo]
      · left; simp [CircuitBreaker.checkStateTransition, hs, hoa, hel]
  · left; simp [CircuitBreaker.checkStateTransition, hs]

lemma call_config (b : CircuitBreaker) (now : ℤ) (fn : FnOutcome) :
    (b.call now fn).breaker.halfOpenMaxCalls = b.halfOpenMaxCalls ∧
      (b.call now fn).breaker.failureThreshold = b.failureThreshold ∧
      (b.call now fn).breaker.recoveryTimeout = b.recoveryTimeout := by
  rcases checkStateTransition_shape b now with hchk | hchk <;>
    cases fn <;>
      (simp only [CircuitBreaker.call, hchk, CircuitBreaker.recordSuccess,
        CircuitBreaker.recordFailure, CircuitBreaker.transitionTo]
       repeat' split
       all_goals simp)

lemma open_not_elapsed_blocks (b : CircuitBreaker) (now : ℤ) (fn : FnOutcome)
    (hs : b.state = .open_) (hel : b.openElapsed now = false) :
    (b.call now fn).fnInvoked = false ∧
      (b.call now fn).outcome = .fallbackResult := by
  have hchk := checkStateTransition_not_elapsed b now hel
  simp [CircuitBreaker.call, hchk, hs]

lemma halfOpen_budget_blocks (b : CircuitBreaker) (now : ℤ) (fn : FnOutcome)
    (hs : b.state = .halfOpen) (hm : b.halfOpenMaxCalls ≤ b.halfOpenCalls) :
    (b.call now fn).fnInvoked = false ∧
      (b.call now fn).outcome = .fallbackResult := by
  have hchk : b.checkStateTransition now = (b, []) := by
    simp [CircuitBreaker.checkStateTransition, hs]
  simp [CircuitBreaker.call, hchk, hs, hm]

lemma probe_exits (b : CircuitBreaker) (now : ℤ) (fn : FnOutcome)
    (hs : b.state = .halfOpen) (h : (b.call now fn).fnInvoked = true) :
    (b.call now fn).breaker.state ≠ .halfOpen := by
  have hchk : b.checkStateTransition now = (b, []) := by
    simp [CircuitBreaker.checkStateTransition, hs]
  by_cases hm : b.halfOpenMaxCalls ≤ b.halfOpenCalls
  · simp [CircuitBreaker.call, hchk, hs, hm] at h
  · cases fn with
    | success =>
      simp [CircuitBreaker.call, hchk, hs, hm, CircuitBreaker.recordSuccess,
        CircuitBreaker.transitionTo]
    | failure =>
      simp [CircuitBreaker.call, hchk, hs, hm, CircuitBreaker.recordFailure,
        CircuitBreaker.transitionTo]

lemma probe_needs_budget (b : CircuitBreaker) (now : ℤ) (fn : FnOutcome)
    (hs : b.state = .halfOpen) (h : (b.call now fn).fnInvoked = true) :
    b.halfOpenCalls < b.halfOpenMaxCalls := by
  by_cases hm : b.halfOpenMaxCalls ≤ b.halfOpenCalls
  · have := (halfOpen_budget_blocks b now fn hs hm).1
    rw [this] at h
    cases h
  · omega

lemma claimC2call_closed (b : CircuitBreaker) (now : ℤ) (fn : FnOutcome)
    (hs : b.state = .closed) : claimC2holds b (.call now fn) = true := by
  have hchk : b.checkStateTransition now = (b, []) := by
    simp [CircuitBreaker.checkStateTransition, hs]
  cases fn with
  | success =>
    simp [claimC2holds, CBOp.run, CBOp.invokedWith, CircuitBreaker.call, hchk, hs,
      CircuitBreaker.recordSuccess, CircuitBreaker.transitionTo]
  | failure =>
    by_cases hth : b.failureThreshold ≤ b.stats.consecutiveFailures + 1
    · simp [claimC2holds, CBOp.run, CBOp.invokedWith, CircuitBreaker.call, hchk, hs,
        CircuitBreaker.recordFailure, CircuitBreaker.transitionTo, hth, claimedChange]
    · simp [claimC2holds, CBOp.run, CBOp.invokedWith, CircuitBreaker.call, hchk, hs,
        CircuitBreaker.recordFailure, CircuitBreaker.transitionTo, hth]

lemma claimC2call_halfOpen (b : CircuitBreaker) (now : ℤ) (fn : FnOutcome)
    (hs : b.state = .halfOpen) : claimC2holds b (.call now fn) = true := by
  have hchk : b.checkStateTransition now = (b, []) := by
    simp [CircuitBreaker.checkStateTransition, hs]
  by_cases hm : b.halfOpenMaxCalls ≤ b.halfOpenCalls
  · simp [claimC2holds, CBOp.run, CBOp.invokedWith, CircuitBreaker.call, hchk, hs, hm]
  · cases fn with
    | success =>
      simp [claimC2holds, CBOp.run, CBOp.invokedWith, CircuitBreaker.call, hchk, hs,
        hm, CircuitBreaker.recordSuccess, CircuitBreaker.transitionTo, claimedChange]
    | failure =>
      simp [claimC2holds, CBOp.run, CBOp.invokedWith, CircuitBreaker.call, hchk, hs,
        hm, CircuitBreaker.recordFailure, CircuitBreaker.transitionTo, claimedChange]

lemma claimC2call_open (b : CircuitBreaker) (now : ℤ) (fn : FnOutcome)
    (hs : b.state = .open_) : claimC2holds b (.call now fn) = true := by
  by_cases hel : b.openElapsed now = true
  · have hel2 := hel
    unfold CircuitBreaker.openElapsed at hel2
    cases hoa : b.stats.openedAt with
    | none => simp [hoa] at hel2
    | some t =>
      simp [hoa] at hel2
      have hchk : b.checkStateTransition now =
          ({ b with
              state := CircuitState.halfOpen
              stats := { b.stats with stateChanges := b.stats.stateChanges + 1 }
              halfOpenCalls := 0 },
            [⟨CircuitState.open_, CircuitState.halfOpen⟩]) := by
        simp [CircuitBreaker.checkStateTransition, hs, hoa, hel2,
          CircuitBreaker.transitionTo]
      by_cases hm : b.halfOpenMaxCalls = 0
      · simp [claimC2holds, CBOp.run, CBOp.invokedWith, CircuitBreaker.call, hchk,
          hm, claimedChange, CBOp.time, CircuitBreaker.openElapsed, hoa, hel2]
      · cases fn with
        | success =>
          simp [claimC2holds, CBOp.run, CBOp.invokedWith, CircuitBreaker.call, hchk,
            hm, claimedChange, CBOp.time, CircuitBreaker.openElapsed, hoa, hel2,
            CircuitBreaker.recordSuccess, CircuitBreaker.transitionTo,
            Nat.pos_of_ne_zero]
        | failure =>
          simp [claimC2holds, CBOp.run, CBOp.invokedWith, CircuitBreaker.call, hchk,
            hm, claimedChange, CBOp.time, CircuitBreaker.openElapsed, hoa, hel2,
            CircuitBreaker.recordFailure, CircuitBreaker.transitionTo,
            Nat.pos_of_ne_zero]
  · simp at hel
    have hchk := checkStateTransition_not_elapsed b now hel
    simp [claimC2holds, CBOp.run, CBOp.invokedWith, CircuitBreaker.call, hchk, hs]

lemma claimC2call (b : CircuitBreaker) (now : ℤ) (fn : FnOutcome) :
    claimC2holds b (.call now fn) = true := by
  cases hs : b.state with
  | closed => exact claimC2call_closed b now fn hs
  | open_ => exact claimC2call_open b now fn hs
  | halfOpen => exact claimC2call_halfOpen b now fn hs

lemma probe_budget_episode (b : CircuitBreaker) (ops : List (ℤ × FnOutcome))
    (hs : b.state = .halfOpen)
    (hrun : ∀ i ∈ List.range ops.length,
      (b.runCalls (ops.take i)).state = .halfOpen) :
    b.probeCount ops ≤ b.halfOpenMaxCalls := by
  induction ops generalizing b with
  | nil => simp [CircuitBreaker.probeCount]
  | cons c rest ih =>
    have hstep : b.probeCount (c :: rest) =
        (if b.state = .halfOpen ∧ (b.call c.1 c.2).fnInvoked = true then 1 else 0)
          + ((b.call c.1 c.2).breaker).probeCount rest := rfl
    by_cases hinv : (b.call c.1 c.2).fnInvoked = true
    · have hbudget := probe_needs_budget b c.1 c.2 hs hinv
      cases rest with
      | nil =>
        simp [CircuitBreaker.probeCount, hs, hinv]
        omega
      | cons d rest2 =>
        exfalso
        have h1 : (b.runCalls (List.take 1 (c :: d :: rest2))).state = .halfOpen := by
          have := hrun 1 (by simp)
          simpa using this
        simp [CircuitBreaker.runCalls] at h1
        exact probe_exits b c.1 c.2 hs hinv h1
    · simp at hinv
      have hnext : ∀ i ∈ List.range rest.length,
          (((b.call c.1 c.2).breaker).runCalls (rest.take i)).state = .halfOpen := by
        intro i hi
        simp at hi
        have := hrun (i + 1) (by simp; omega)
        simpa [CircuitBreaker.runCalls] using this
      rcases Nat.eq_zero_or_pos rest.length with h0 | hpos
      · have hnil : rest = [] := List.eq_nil_of_length_eq_zero h0
        subst hnil
        simp [CircuitBreaker.probeCount, hinv]
      · have hs2 : ((b.call c.1 c.2).breaker).state = .halfOpen := by
          have := hnext 0 (by simp [List.mem_range]; omega)
          simpa using this
        have hb := ih ((b.call c.1 c.2).breaker) hs2 hnext
        have hcfg := (call_config b c.1 c.2).1
        rw [hstep]
        simp [hinv]
        omega

/-! ## Claims C2, C3, C4 -/

/-- C2: the claim's transition rules do hold for every `call` operation, and
`reset` / `force_open` always perform a (manual) transition to Closed
resp. Open; the amendment is that these two manual transitions are not
restricted by the claimed rules (see the counterexample). -/
theorem circuit_transition_rules_amended :
    (∀ (b : CircuitBreaker) (now : ℤ) (fn : FnOutcome),
      claimC2holds b (.call now fn) = true)
    ∧ (∀ (b : CircuitBreaker) (now : ℤ),
      (b.reset now).2 = [⟨b.state, .closed⟩] ∧ (b.reset now).1.state = .closed ∧
        (b.reset now).1.stats.consecutiveFailures = 0)
    ∧ (∀ (b : CircuitBreaker) (now : ℤ),
      (b.forceOpen now).2 = [⟨b.state, .open_⟩] ∧
        (b.forceOpen now).1.state = .open_) := by
  refine ⟨claimC2call, fun b now => ?_, fun b now => ?_⟩
  · simp [CircuitBreaker.reset, CircuitBreaker.transitionTo]
  · simp [CircuitBreaker.forceOpen, CircuitBreaker.transitionTo]

/-- A freshly constructed breaker (threshold 3, 60 s recovery, 1 half-open
probe), i.e. the initial, trivially reachable state. -/
def c2FreshBreaker : CircuitBreaker :=
  { failureThreshold := 3, recoveryTimeout := seconds 60, halfOpenMaxCalls := 1 }

/-- C2 counterexample: from the initial (reachable) breaker state, a single
`force_open` operation performs the state change Closed→Open with no failure
recorded and `consecutive_failures = 0 < failureThreshold`, so the claimed
list of transition rules is violated by a reachable sequence of
call/reset/force_open operations. -/
theorem circuit_transition_rules_counterexample :
    claimC2holds c2FreshBreaker (.forceOpen 0) = false ∧
      (c2FreshBreaker.forceOpen 0).2 = [⟨.closed, .open_⟩] ∧
      (c2FreshBreaker.forceOpen 0).1.stats.consecutiveFailures = 0 := by
  decide

/-- C3: while OPEN with the recovery timeout not yet elapsed, or HALF_OPEN
with the probe budget exhausted, `call` returns the fallback and never
invokes `func`; and any run of `call` operations throughout which the
breaker stays HALF_OPEN makes at most `halfOpenMaxCalls` probes. -/
theorem circuit_blocks_without_probe_budget :
    (∀ (b : CircuitBreaker) (now : ℤ) (fn : FnOutcome),
      b.state = .open_ → b.openElapsed now = false →
      (b.call now fn).fnInvoked = false ∧
        (b.call now fn).outcome = .fallbackResult)
    ∧ (∀ (b : CircuitBreaker) (now : ℤ) (fn : FnOutcome),
      b.state = .halfOpen → b.halfOpenMaxCalls ≤ b.halfOpenCalls →
      (b.call now fn).fnInvoked = false ∧
        (b.call now fn).outcome = .fallbackResult)
    ∧ (∀ (b : CircuitBreaker) (ops : List (ℤ × FnOutcome)),
      b.state = .halfOpen →
      (∀ i ∈ List.range ops.length,
        (b.runCalls (ops.take i)).state = .halfOpen) →
      b.probeCount ops ≤ b.halfOpenMaxCalls) :=
  ⟨open_not_elapsed_blocks, halfOpen_budget_blocks, probe_budget_episode⟩

/-- An OPEN breaker that opened at time 0 with a 60 s recovery timeout. -/
def c3OpenBreaker : CircuitBreaker :=
  { failureThreshold := 3, recoveryTimeout := seconds 60, halfOpenMaxCalls := 1
    state := .open_, stats := { openedAt := some 0 } }

/-- A HALF_OPEN breaker whose single probe slot is taken. -/
def c3HalfBreaker : CircuitBreaker :=
  { failureThreshold := 3, recoveryTimeout := seconds 60, halfOpenMaxCalls := 1
    state := .halfOpen, halfOpenCalls := 1 }

/-- A HALF_OPEN breaker with a free probe slot. -/
def c3ProbeBreaker : CircuitBreaker :=
  { failureThreshold := 3, recoveryTimeout := seconds 60, halfOpenMaxCalls := 1
    state := .halfOpen }

/-- Witness for C3 at concrete states: an OPEN breaker 30 s in (timeout not
elapsed) and a HALF_OPEN breaker with its budget exhausted both fall back
without invoking `func`; a one-probe run respects the budget. -/
theorem circuit_blocks_without_probe_budget_witness :
    ((c3OpenBreaker.call (seconds 30) .success).fnInvoked = false ∧
      (c3OpenBreaker.call (seconds 30) .success).outcome = .fallbackResult)
    ∧ ((c3HalfBreaker.call 0 .success).fnInvoked = false ∧
      (c3HalfBreaker.call 0 .success).outcome = .fallbackResult)
    ∧ c3ProbeBreaker.probeCount [(0, .failure)] ≤
        c3ProbeBreaker.halfOpenMaxCalls :=
  ⟨circuit_blocks_without_probe_budget.1 c3OpenBreaker (seconds 30) .success
      (by decide) (by decide),
   circuit_blocks_without_probe_budget.2.1 c3HalfBreaker 0 .success
      (by decide) (by decide),
   circuit_blocks_without_probe_budget.2.2 c3ProbeBreaker [(0, .failure)]
      (by decide) (by decide)⟩

/-- C4: whenever `call` invoked `func` and `func` failed (which can only
happen from the Closed or HalfOpen gate), the error is re-raised to the
caller; `call_with_fallback` never lets an error escape, returning the
fallback instead while keeping `call`'s state effects. -/
theorem call_propagates_callWithFallback_catches :
    (∀ (b : CircuitBreaker) (now : ℤ),
      (b.call now .failure).fnInvoked = true →
      (b.call now .failure).outcome = .errorRaised ∧
        ((b.checkStateTransition now).1.state = .closed ∨
          (b.checkStateTransition now).1.state = .halfOpen))
    ∧ (∀ (b : CircuitBreaker) (now : ℤ) (fn : FnOutcome),
      (b.callWithFallback now fn).outcome ≠ .errorRaised)
    ∧ (∀ (b : CircuitBreaker) (now : ℤ) (fn : FnOutcome),
      (b.call now fn).outcome = .errorRaised →
      (b.callWithFallback now fn).outcome = .fallbackResult ∧
        (b.callWithFallback now fn).breaker = (b.call now fn).breaker) := by
  refine ⟨?_, ?_, ?_⟩
  · intro b now h
    by_cases h1 : (b.checkStateTransition now).1.state = .open_
    · simp [CircuitBreaker.call, h1] at h
    · by_cases h2 : (b.checkStateTransition now).1.state = .halfOpen ∧
          (b.checkStateTransition now).1.halfOpenMaxCalls ≤
            (b.checkStateTransition now).1.halfOpenCalls
      · simp [CircuitBreaker.call, h1, h2] at h
      · refine ⟨by simp [CircuitBreaker.call, h1, h2], ?_⟩
        cases hst : (b.checkStateTransition now).1.state with
        | closed => simp
        | open_ => exact absurd hst h1
        | halfOpen => simp
  · intro b now fn
    by_cases hx : (b.call now fn).outcome = .errorRaised <;>
      simp [CircuitBreaker.callWithFallback, hx]
  · intro b now fn hx
    simp [CircuitBreaker.callWithFallback, hx]

/-- A freshly constructed breaker used to witness C4. -/
def c4Breaker : CircuitBreaker :=
  { failureThreshold := 3, recoveryTimeout := seconds 60, halfOpenMaxCalls := 1 }

/-- Witness for C4: on a fresh (Closed) breaker a failing `func` is invoked
and its error re-raised by `call`, while `call_with_fallback` on the same
input returns the fallback with the same resulting breaker state. -/
theorem call_propagates_callWithFallback_catches_witness :
    ((c4Breaker.call 0 .failure).outcome = .errorRaised ∧
      ((c4Breaker.checkStateTransition 0).1.state = .closed ∨
        (c4Breaker.checkStateTransition 0).1.state = .halfOpen))
    ∧ ((c4Breaker.callWithFallback 0 .failure).outcome = .fallbackResult ∧
      (c4Breaker.callWithFallback 0 .failure).breaker =
        (c4Breaker.call 0 .failure).breaker) :=
  ⟨call_propagates_callWithFallback_catches.1 c4Breaker 0 (by decide),
   call_propagates_callWithFallback_catches.2.2 c4Breaker 0 .failure (by decide)⟩

/-! ## Shared lemmas about the rate limiter, and claim C5 -/

/-- The key's window after the pruning step of `check_rate_limit`. -/
def prunedWindow (cfg : RateLimiterConfig) (window : List ℤ)
    (now : ℤ) : List ℤ :=
  window.filter (fun ts => decide (now - cfg.windowSeconds < ts))

/-- Number of admitted calls in a list of results. -/
def countAdmitted (rs : List RateLimitResult) : Nat :=
  (rs.filter (·.allowed)).length

lemma check_deny (cfg : RateLimiterConfig) (window : List ℤ) (now : ℤ)
    (h : cfg.maxRequests ≤ (prunedWindow cfg window now).length) :
    (check_rate_limit cfg window now).1.allowed = false ∧
    (check_rate_limit cfg window now).2 = prunedWindow cfg window now ∧
    (check_rate_limit cfg window now).1.retryAfter =
      some (max (intTotalSeconds
        (((prunedWindow cfg window now).min?).getD 0 + cfg.windowSeconds - now)) 1) ∧
    (∀ a ∈ (check_rate_limit cfg window now).1.retryAfter, 1 ≤ a) := by
  unfold check_rate_limit
  unfold prunedWindow at h
  simp [h, prunedWindow]

lemma check_allow (cfg : RateLimiterConfig) (window : List ℤ) (now : ℤ)
    (h : (prunedWindow cfg window now).length < cfg.maxRequests) :
    (check_rate_limit cfg window now).1.allowed = true ∧
    (check_rate_limit cfg window now).2 = prunedWindow cfg window now ++ [now] ∧
    (check_rate_limit cfg window now).1.remaining =
      (cfg.maxRequests : Int) - (check_rate_limit cfg window now).2.length := by
  unfold check_rate_limit
  unfold prunedWindow at h
  have h2 : ¬ (cfg.maxRequests ≤ (window.filter
      (fun ts => decide (now - cfg.windowSeconds < ts))).length) := by omega
  simp [h2, prunedWindow]

lemma countAdmitted_cons (r : RateLimitResult) (rs : List RateLimitResult) :
    countAdmitted (r :: rs) =
      (if r.allowed = true then 1 else 0) + countAdmitted rs := by
  unfold countAdmitted
  rw [List.filter_cons]
  split
  all_goals simp_all
  omega

lemma runChecks_cons (cfg : RateLimiterConfig) (w : List ℤ) (t : ℤ)
    (ts : List ℤ) :
    runChecks cfg w (t :: ts) =
      ((check_rate_limit cfg w t).1 ::
        (runChecks cfg (check_rate_limit cfg w t).2 ts).1,
       (runChecks cfg (check_rate_limit cfg w t).2 ts).2) := rfl

lemma pruned_all (cfg : RateLimiterConfig) (w : List ℤ) (t t0 : ℤ)
    (hw : ∀ x ∈ w, t0 ≤ x) (hb2 : t - t0 < cfg.windowSeconds) :
    prunedWindow cfg w t = w := by
  unfold prunedWindow
  rw [List.filter_eq_self]
  intro x hx
  have hx0 := hw x hx
  simp only [decide_eq_true_eq]
  omega

lemma runChecks_count (cfg : RateLimiterConfig) (ts : List ℤ) :
    ∀ (w : List ℤ) (t0 : ℤ),
    (∀ x ∈ w, t0 ≤ x) →
    (∀ t ∈ ts, t0 ≤ t ∧ t - t0 < cfg.windowSeconds) →
    countAdmitted (runChecks cfg w ts).1
        = min ts.length (cfg.maxRequests - w.length) ∧
    (runChecks cfg w ts).2.length
        = w.length + min ts.length (cfg.maxRequests - w.length) ∧
    (∀ x ∈ (runChecks cfg w ts).2, t0 ≤ x) := by
  induction ts with
  | nil =>
    intro w t0 hw hts
    simp [runChecks, countAdmitted]
    exact hw
  | cons t ts ih =>
    intro w t0 hw hts
    obtain ⟨hb1, hb2⟩ := hts t (by simp)
    have hpruned : prunedWindow cfg w t = w := pruned_all cfg w t t0 hw hb2
    have hts2 : ∀ u ∈ ts, t0 ≤ u ∧ u - t0 < cfg.windowSeconds :=
      fun u hu => hts u (by simp [hu])
    rw [runChecks_cons]
    by_cases hm : cfg.maxRequests ≤ w.length
    · have hd := check_deny cfg w t (by rw [hpruned]; exact hm)
      rw [hd.2.1, hpruned]
      have hrest := ih w t0 hw hts2
      rw [countAdmitted_cons, hd.1]
      refine ⟨?_, ?_, hrest.2.2⟩
      · rw [hrest.1]; simp; omega
      · rw [hrest.2.1]; simp; omega
    · have ha := check_allow cfg w t (by rw [hpruned]; omega)
      rw [ha.2.1, hpruned]
      have hw2 : ∀ x ∈ w ++ [t], t0 ≤ x := by
        intro x hx
        rcases List.mem_append.mp hx with h | h
        · exact hw x h
        · simp at h; omega
      have hrest := ih (w ++ [t]) t0 hw2 hts2
      have hlen : (w ++ [t]).length = w.length + 1 := by simp
      rw [hlen] at hrest
      rw [countAdmitted_cons, ha.1]
      refine ⟨?_, ?_, hrest.2.2⟩
      · rw [hrest.1]; simp; omega
      · rw [hrest.2.1]; simp; omega

lemma runChecks_append (cfg : RateLimiterConfig) (l1 l2 : List ℤ) :
    ∀ w, runChecks cfg w (l1 ++ l2) =
      ((runChecks cfg w l1).1 ++ (runChecks cfg (runChecks cfg w l1).2 l2).1,
        (runChecks cfg (runChecks cfg w l1).2 l2).2) := by
  induction l1 with
  | nil => intro w; simp [runChecks]
  | cons t l1 ih =>
    intro w
    rw [List.cons_append, runChecks_cons, runChecks_cons, ih]
    simp

lemma sliding_window_sequence (cfg : RateLimiterConfig) (t0 : ℤ) (ts : List ℤ)
    (hts : ∀ t ∈ ts, t0 ≤ t ∧ t - t0 < cfg.windowSeconds) :
    countAdmitted (runChecks cfg [] ts).1 = min ts.length cfg.maxRequests ∧
    (1 ≤ cfg.maxRequests → ts.length = cfg.maxRequests + 1 →
      ∃ r, (runChecks cfg [] ts).1.getLast? = some r ∧ r.allowed = false ∧
        ∃ a, r.retryAfter = some a ∧ 1 ≤ a) := by
  constructor
  · have h := (runChecks_count cfg ts [] t0 (by simp) hts).1
    simpa using h
  · intro hmax hlen
    have hne : ts ≠ [] := by
      intro h
      rw [h] at hlen
      simp at hlen
    obtain ⟨l1, tl, heq⟩ : ∃ l1 tl, ts = l1 ++ [tl] :=
      ⟨ts.dropLast, ts.getLast hne, (List.dropLast_append_getLast hne).symm⟩
    subst heq
    have hlen1 : l1.length = cfg.maxRequests := by
      simp at hlen
      omega
    have hts1 : ∀ t ∈ l1, t0 ≤ t ∧ t - t0 < cfg.windowSeconds :=
      fun t ht => hts t (by simp [ht])
    obtain ⟨htl1, htl2⟩ := hts tl (by simp)
    have hc := runChecks_count cfg l1 [] t0 (by simp) hts1
    have hw1len : (runChecks cfg [] l1).2.length = cfg.maxRequests := by
      rw [hc.2.1]
      simp [hlen1]
    have hprune : prunedWindow cfg (runChecks cfg [] l1).2 tl
        = (runChecks cfg [] l1).2 :=
      pruned_all cfg _ tl t0 hc.2.2 htl2
    have hd := check_deny cfg (runChecks cfg [] l1).2 tl
      (by rw [hprune, hw1len])
    rw [runChecks_append]
    refine ⟨(check_rate_limit cfg (runChecks cfg [] l1).2 tl).1, ?_, hd.1, ?_⟩
    · rw [runChecks_cons]
      simp [runChecks]
    · refine ⟨max (intTotalSeconds
        (((prunedWindow cfg (runChecks cfg [] l1).2 tl).min?).getD 0
          + cfg.windowSeconds - tl)) 1, hd.2.2.1, ?_⟩
      exact le_max_right _ _

/-- C5 (amended): `check_rate_limit` prunes to the trailing window, denies
iff the pruned window is full, appends and reports
`remaining = maxRequests - len(window)` when admitting, and admits exactly
`maxRequests` of any run of calls within one window, denying the
`(maxRequests+1)`-th with `retryAfter ≥ 1`; but the denied `retryAfter` is
`max(int(oldest + windowSeconds - now), 1)` — Python `int()` truncation,
not the claimed `ceil`. -/
theorem rate_limit_check_amended :
    (∀ (cfg : RateLimiterConfig) (window : List ℤ) (now : ℤ),
      cfg.maxRequests ≤ (prunedWindow cfg window now).length →
      (check_rate_limit cfg window now).1.allowed = false ∧
      (check_rate_limit cfg window now).2 = prunedWindow cfg window now ∧
      (check_rate_limit cfg window now).1.retryAfter =
        some (max (intTotalSeconds
          (((prunedWindow cfg window now).min?).getD 0
            + cfg.windowSeconds - now)) 1) ∧
      (∀ a ∈ (check_rate_limit cfg window now).1.retryAfter, 1 ≤ a))
    ∧ (∀ (cfg : RateLimiterConfig) (window : List ℤ) (now : ℤ),
      (prunedWindow cfg window now).length < cfg.maxRequests →
      (check_rate_limit cfg window now).1.allowed = true ∧
      (check_rate_limit cfg window now).2 = prunedWindow cfg window now ++ [now] ∧
      (check_rate_limit cfg window now).1.remaining =
        (cfg.maxRequests : Int) - (check_rate_limit cfg window now).2.length)
    ∧ (∀ (cfg : RateLimiterConfig) (t0 : ℤ) (ts : List ℤ),
      (∀ t ∈ ts, t0 ≤ t ∧ t - t0 < cfg.windowSeconds) →
      countAdmitted (runChecks cfg [] ts).1 = min ts.length cfg.maxRequests ∧
      (1 ≤ cfg.maxRequests → ts.length = cfg.maxRequests + 1 →
        ∃ r, (runChecks cfg [] ts).1.getLast? = some r ∧ r.allowed = false ∧
          ∃ a, r.retryAfter = some a ∧ 1 ≤ a)) :=
  ⟨check_deny, check_allow, sliding_window_sequence⟩

/-- A limiter admitting 1 request per 10 s window. -/
def c5Config : RateLimiterConfig :=
  { maxRequests := 1, windowSeconds := seconds 10 }

/-- C5 counterexample: with one admitted request at t = 0 s and a denied
check at t = 7.5 s, the code returns `retryAfter = int(2.5) = 2` while the
claimed `ceil(oldest + windowSeconds - now)` (minimum 1) equals 3. -/
theorem rate_limit_retry_after_counterexample :
    (check_rate_limit c5Config [0] 7500000).1.retryAfter = some 2 ∧
    max (ceilTotalSeconds ((0 : ℤ) + seconds 10 - 7500000)) 1 = 3 := by
  decide

/-- A limiter admitting 2 requests per 10 s window, used to witness C5. -/
def c5WitnessConfig : RateLimiterConfig :=
  { maxRequests := 2, windowSeconds := seconds 10 }

/-- Witness for C5 at concrete inputs: a full window denies, a window with
room admits, and of three calls inside one window exactly two are
admitted. -/
theorem rate_limit_check_amended_witness :
    (check_rate_limit c5WitnessConfig [0, 1000000] 2000000).1.allowed = false ∧
    (check_rate_limit c5WitnessConfig [0] 1000000).1.allowed = true ∧
    countAdmitted (runChecks c5WitnessConfig [] [0, 1000000, 2000000]).1 =
      min 3 c5WitnessConfig.maxRequests :=
  ⟨(rate_limit_check_amended.1 c5WitnessConfig [0, 1000000] 2000000 (by decide)).1,
   (rate_limit_check_amended.2.1 c5WitnessConfig [0] 1000000 (by decide)).1,
   (rate_limit_check_amended.2.2 c5WitnessConfig 0 [0, 1000000, 2000000]
      (by decide)).1⟩

/-! ## Shared lemmas about the work queue, and claim C1 -/

lemma msgGet_msgSet_self (id : String) (m : QueuedMessage) :
    ∀ l, msgGet id (msgSet id m l) = some m := by
  intro l
  induction l with
  | nil => simp [msgGet, msgSet]
  | cons p rest ih =>
    by_cases h : p.1 = id <;> simp [msgGet, msgSet, h, ih]

lemma msgGet_msgSet_ne (id id2 : String) (m : QueuedMessage) (h : id2 ≠ id) :
    ∀ l, msgGet id2 (msgSet id m l) = msgGet id2 l := by
  intro l
  have h2 : id ≠ id2 := fun hh => h hh.symm
  induction l with
  | nil => simp [msgGet, msgSet, h2]
  | cons p rest ih =>
    by_cases hp : p.1 = id
    · subst hp
      simp [msgGet, msgSet, h2]
    · simp [msgGet, msgSet, hp, ih]

/-- Characterization of one `InMemoryQueue.fail` call on a stored message:
`retry_count` is bumped and the error recorded; within the retry budget the
message is rescheduled `ladder[min(n-1, 4)]` later (n the new retry count)
and re-queued as PENDING, past the budget it keeps its schedule and moves to
the dead-letter dict. -/
lemma fail_spec (q : QueueState) (messageId error : String) (now : ℤ)
    (m : QueuedMessage) (hm : msgGet messageId q.messages = some m) :
    ∃ m2, msgGet messageId
        (InMemoryQueue.fail q messageId error now).messages = some m2 ∧
      m2.retryCount = m.retryCount + 1 ∧
      m2.error = some error ∧
      (m.retryCount + 1 ≤ m.maxRetries →
        m2.status = .pending ∧
        m2.scheduledAt = now +
          retryDelays.getD (min m.retryCount (retryDelays.length - 1)) 0 ∧
        messageId ∈ (InMemoryQueue.fail q messageId error now).pendingQueue) ∧
      (m.maxRetries < m.retryCount + 1 →
        m2.status = .deadLetter ∧ m2.scheduledAt = m.scheduledAt ∧
        messageId ∈ (InMemoryQueue.fail q messageId error now).deadLetter) := by
  simp only [InMemoryQueue.fail, hm]
  by_cases hr : m.retryCount + 1 ≤ m.maxRetries
  · rw [if_pos hr]
    refine ⟨_, msgGet_msgSet_self _ _ _, by simp, by simp, ?_, ?_⟩
    · intro h
      simp
    · intro h
      omega
  · rw [if_neg hr]
    refine ⟨_, msgGet_msgSet_self _ _ _, by simp, by simp, ?_, ?_⟩
    · intro h
      exact absurd h hr
    · intro h
      simp [setAdd]
      split
      all_goals simp_all

/-- The unit of work used for the C1 retry-ladder scenario
(`max_retries = 5`, created at t = 0). -/
def c1Msg : QueuedMessage := newMessage "m1" "p" "b" "sid" none 5 0

/-- The C1 scenario: enqueue, then dequeue-and-fail six times, each dequeue
as soon as the retry delay has elapsed. -/
def c1q0 : QueueState := InMemoryQueue.enqueue emptyQueue c1Msg

def c1q1 : QueueState :=
  InMemoryQueue.fail (InMemoryQueue.dequeue c1q0 0).1 "m1" "e1" 0

def c1q2 : QueueState :=
  InMemoryQueue.fail (InMemoryQueue.dequeue c1q1 (seconds 60)).1 "m1" "e2"
    (seconds 60)

def c1q3 : QueueState :=
  InMemoryQueue.fail (InMemoryQueue.dequeue c1q2 (seconds 360)).1 "m1" "e3"
    (seconds 360)

def c1q4 : QueueState :=
  InMemoryQueue.fail (InMemoryQueue.dequeue c1q3 (seconds 1260)).1 "m1" "e4"
    (seconds 1260)

def c1q5 : QueueState :=
  InMemoryQueue.fail (InMemoryQueue.dequeue c1q4 (seconds 4860)).1 "m1" "e5"
    (seconds 4860)

def c1q6 : QueueState :=
  InMemoryQueue.fail (InMemoryQueue.dequeue c1q5 (seconds 26460)).1 "m1" "e6"
    (seconds 26460)

/-- C1: every `fail` on a stored message applies the backoff ladder
`[60, 300, 900, 3600, 21600]` s at index `min(n-1, 4)` for the n-th failure
(n the new retry count), bumps `retry_count`, and returns the item to
PENDING — unless the new `retry_count` exceeds `max_retries`, in which case
it moves to DeadLetter; with `max_retries = 5` the five retries are delayed
60 s, 300 s, 900 s, 3600 s and 21600 s and the sixth failure dead-letters
the item. -/
theorem retry_backoff_ladder :
    (∀ (q : QueueState) (messageId error : String) (now : ℤ)
        (m : QueuedMessage),
      msgGet messageId q.messages = some m →
      ∃ m2, msgGet messageId
          (InMemoryQueue.fail q messageId error now).messages = some m2 ∧
        m2.retryCount = m.retryCount + 1 ∧
        m2.error = some error ∧
        (m.retryCount + 1 ≤ m.maxRetries →
          m2.status = .pending ∧
          m2.scheduledAt = now +
            retryDelays.getD (min m.retryCount (retryDelays.length - 1)) 0 ∧
          messageId ∈ (InMemoryQueue.fail q messageId error now).pendingQueue) ∧
        (m.maxRetries < m.retryCount + 1 →
          m2.status = .deadLetter ∧ m2.scheduledAt = m.scheduledAt ∧
          messageId ∈ (InMemoryQueue.fail q messageId error now).deadLetter))
    ∧ ((msgGet "m1" c1q1.messages).map (fun m => (m.status, m.scheduledAt - 0)) =
        some (.pending, seconds 60)
      ∧ (msgGet "m1" c1q2.messages).map
          (fun m => (m.status, m.scheduledAt - seconds 60)) =
        some (.pending, seconds 300)
      ∧ (msgGet "m1" c1q3.messages).map
          (fun m => (m.status, m.scheduledAt - seconds 360)) =
        some (.pending, seconds 900)
      ∧ (msgGet "m1" c1q4.messages).map
          (fun m => (m.status, m.scheduledAt - seconds 1260)) =
        some (.pending, seconds 3600)
      ∧ (msgGet "m1" c1q5.messages).map
          (fun m => (m.status, m.scheduledAt - seconds 4860)) =
        some (.pending, seconds 21600)
      ∧ (msgGet "m1" c1q6.messages).map (fun m => (m.status, m.retryCount)) =
        some (.deadLetter, 6)
      ∧ "m1" ∈ c1q6.deadLetter) :=
  ⟨fail_spec, by decide⟩

/-- Witness for C1: the first failure of the freshly enqueued scenario
message is rescheduled on the ladder. -/
theorem retry_backoff_ladder_witness :
    ∃ m2, msgGet "m1"
        (InMemoryQueue.fail c1q0 "m1" "boom" 0).messages = some m2 ∧
      m2.retryCount = c1Msg.retryCount + 1 ∧
      m2.error = some "boom" ∧
      (c1Msg.retryCount + 1 ≤ c1Msg.maxRetries →
        m2.status = .pending ∧
        m2.scheduledAt = 0 +
          retryDelays.getD (min c1Msg.retryCount (retryDelays.length - 1)) 0 ∧
        "m1" ∈ (InMemoryQueue.fail c1q0 "m1" "boom" 0).pendingQueue) ∧
      (c1Msg.maxRetries < c1Msg.retryCount + 1 →
        m2.status = .deadLetter ∧ m2.scheduledAt = c1Msg.scheduledAt ∧
        "m1" ∈ (InMemoryQueue.fail c1q0 "m1" "boom" 0).deadLetter) :=
  retry_backoff_ladder.1 c1q0 "m1" "boom" 0 c1Msg (by decide)

/-! ## Claims C9 and C10 -/

lemma mem_setAdd_self (id : String) (s : List String) : id ∈ setAdd id s := by
  unfold setAdd
  split
  · assumption
  · simp

/-- Characterization of one `InMemoryQueue.complete` call on a stored
message: status COMPLETED, id moved into the completed set, the failed set
untouched. -/
lemma complete_spec (q : QueueState) (messageId : String) (now : ℤ)
    (m : QueuedMessage) (hm : msgGet messageId q.messages = some m) :
    ∃ m2, msgGet messageId
        (InMemoryQueue.complete q messageId now).messages = some m2 ∧
      m2.status = .completed ∧ m2.retryCount = m.retryCount ∧
      m2.scheduledAt = m.scheduledAt ∧
      messageId ∈ (InMemoryQueue.complete q messageId now).completed ∧
      (InMemoryQueue.complete q messageId now).failed = q.failed := by
  simp only [InMemoryQueue.complete, hm]
  refine ⟨_, msgGet_msgSet_self _ _ _, by simp, by simp, by simp, ?_, by simp⟩
  exact mem_setAdd_self _ _

lemma fail_adds_failed (q : QueueState) (messageId error : String) (now : ℤ)
    (m : QueuedMessage) (hm : msgGet messageId q.messages = some m) :
    messageId ∈ (InMemoryQueue.fail q messageId error now).failed := by
  simp only [InMemoryQueue.fail, hm]
  by_cases hr : m.retryCount + 1 ≤ m.maxRetries
  · rw [if_pos hr]
    exact mem_setAdd_self _ _
  · rw [if_neg hr]
    exact mem_setAdd_self _ _

lemma complete_keeps_failed (q : QueueState) (messageId : String) (now : ℤ) :
    (InMemoryQueue.complete q messageId now).failed = q.failed := by
  unfold InMemoryQueue.complete
  cases h : msgGet messageId q.messages <;> simp

/-- The handler that always succeeds / always raises, and the C9 scenario
queue holding one processing-ready message. -/
def c9Msg : QueuedMessage := newMessage "w1" "p" "b" "sid" none 5 0

def c9q : QueueState := InMemoryQueue.enqueue emptyQueue c9Msg

def c9okHandler : QueuedMessage → Except String Unit := fun _ => Except.ok ()

def c9errHandler : QueuedMessage → Except String Unit :=
  fun _ => Except.error "handler blew up"

/-- C9: the worker's per-item handling invokes the handler on the item and
then performs exactly `complete` on success and exactly `fail` (with the
stringified error) on any raised error; it is a total function into queue
states — no third outcome exists, so no error escapes to the consumer
loop.  On a stored message the success path marks it COMPLETED and the
failure path records the error, bumps the retry count, and leaves it
PENDING or DEAD_LETTER. -/
theorem worker_completes_or_fails :
    (∀ (handler : QueuedMessage → Except String Unit) (q : QueueState)
        (message : QueuedMessage) (now : ℤ),
      (handler message = Except.ok () →
        QueueWorker.processMessage handler q message now =
          InMemoryQueue.complete q message.id now)
      ∧ (∀ e, handler message = Except.error e →
        QueueWorker.processMessage handler q message now =
          InMemoryQueue.fail q message.id e now)
      ∧ (QueueWorker.processMessage handler q message now =
          InMemoryQueue.complete q message.id now ∨
        ∃ e, handler message = Except.error e ∧
          QueueWorker.processMessage handler q message now =
            InMemoryQueue.fail q message.id e now))
    ∧ (∀ (handler : QueuedMessage → Except String Unit) (q : QueueState)
        (message : QueuedMessage) (now : ℤ) (m : QueuedMessage),
      msgGet message.id q.messages = some m →
      (handler message = Except.ok () →
        ∃ m2, msgGet message.id
            (QueueWorker.processMessage handler q message now).messages =
          some m2 ∧ m2.status = .completed)
      ∧ (∀ e, handler message = Except.error e →
        ∃ m2, msgGet message.id
            (QueueWorker.processMessage handler q message now).messages =
          some m2 ∧ m2.error = some e ∧ m2.retryCount = m.retryCount + 1 ∧
          (m2.status = .pending ∨ m2.status = .deadLetter))) := by
  constructor
  · intro handler q message now
    refine ⟨?_, ?_, ?_⟩
    · intro h
      simp [QueueWorker.processMessage, h]
    · intro e h
      simp [QueueWorker.processMessage, h]
    · cases h : handler message with
      | ok u =>
        left
        cases u
        simp [QueueWorker.processMessage, h]
      | error e =>
        right
        exact ⟨e, rfl, by simp [QueueWorker.processMessage, h]⟩
  · intro handler q message now m hm
    constructor
    · intro h
      have heq : QueueWorker.processMessage handler q message now =
          InMemoryQueue.complete q message.id now := by
        simp [QueueWorker.processMessage, h]
      rw [heq]
      obtain ⟨m2, hm2, hs, _⟩ := complete_spec q message.id now m hm
      exact ⟨m2, hm2, hs⟩
    · intro e h
      have heq : QueueWorker.processMessage handler q message now =
          InMemoryQueue.fail q message.id e now := by
        simp [QueueWorker.processMessage, h]
      rw [heq]
      obtain ⟨m2, hm2, hrc, herr, hlive, hdead⟩ := fail_spec q message.id e now m hm
      refine ⟨m2, hm2, herr, hrc, ?_⟩
      rcases le_or_lt (m.retryCount + 1) m.maxRetries with hle | hlt
      · exact Or.inl (hlive hle).1
      · exact Or.inr (hdead hlt).1

/-- Witness for C9: on the one-message scenario queue, the always-ok handler
performs `complete` (leaving the message COMPLETED) and the always-raising
handler performs `fail`. -/
theorem worker_completes_or_fails_witness :
    (QueueWorker.processMessage c9okHandler c9q c9Msg 0 =
      InMemoryQueue.complete c9q c9Msg.id 0)
    ∧ (QueueWorker.processMessage c9errHandler c9q c9Msg 0 =
      InMemoryQueue.fail c9q c9Msg.id "handler blew up" 0)
    ∧ (∃ m2, msgGet c9Msg.id
        (QueueWorker.processMessage c9okHandler c9q c9Msg 0).messages =
      some m2 ∧ m2.status = .completed) :=
  ⟨(worker_completes_or_fails.1 c9okHandler c9q c9Msg 0).1 rfl,
   (worker_completes_or_fails.1 c9errHandler c9q c9Msg 0).2.1
      "handler blew up" rfl,
   (worker_completes_or_fails.2 c9okHandler c9q c9Msg 0 c9Msg (by decide)).1
      rfl⟩

/-- The C10 scenario: one message that fails once, is retried, and then
completes. -/
def c10q0 : QueueState :=
  InMemoryQueue.enqueue emptyQueue (newMessage "m1" "p" "b" "sid" none 5 0)

def c10q1 : QueueState :=
  InMemoryQueue.fail (InMemoryQueue.dequeue c10q0 0).1 "m1" "boom" 0

def c10q2 : QueueState :=
  InMemoryQueue.complete (InMemoryQueue.dequeue c10q1 (seconds 60)).1 "m1"
    (seconds 60)

/-- C10: `fail` adds the id to the failed set also when the message is
merely rescheduled, `complete` never removes it, and consequently a message
that fails once and then completes is counted in both `completed` and
`failed`, leaving `error_rate = failed/(completed+failed)*100 = 50`
although every message ultimately completed. -/
theorem failed_set_semantics :
    (∀ (q : QueueState) (messageId error : String) (now : ℤ)
        (m : QueuedMessage),
      msgGet messageId q.messages = some m →
      messageId ∈ (InMemoryQueue.fail q messageId error now).failed)
    ∧ (∀ (q : QueueState) (messageId : String) (now : ℤ),
      (InMemoryQueue.complete q messageId now).failed = q.failed)
    ∧ ("m1" ∈ c10q2.completed ∧ "m1" ∈ c10q2.failed ∧
      (msgGet "m1" c10q2.messages).map (·.status) = some .completed ∧
      (InMemoryQueue.getMetrics c10q2).completed = 1 ∧
      (InMemoryQueue.getMetrics c10q2).failed = 1 ∧
      (InMemoryQueue.getMetrics c10q2).deadLetter = 0 ∧
      (InMemoryQueue.getMetrics c10q2).errorRate = 50) := by
  refine ⟨fail_adds_failed, complete_keeps_failed,
    by decide, by decide, by decide, by decide, by decide, by decide, ?_⟩
  have hf : c10q2.failed.length = 1 := by decide
  have hc : c10q2.completed.length = 1 := by decide
  simp [InMemoryQueue.getMetrics, hf, hc]
  norm_num

/-- Witness for C10: failing the freshly enqueued scenario message puts its
id into the failed set even though it is only rescheduled. -/
theorem failed_set_semantics_witness :
    "m1" ∈ (InMemoryQueue.fail c10q0 "m1" "boom" 0).failed :=
  failed_set_semantics.1 c10q0 "m1" "boom" 0
    (newMessage "m1" "p" "b" "sid" none 5 0) (by decide)

/-! ## Shared lemmas about the message buffer, and claims C6, C7 -/

lemma dictGet_dictSet_self (key : String) (v : LeadBuffer) :
    ∀ l, dictGet key (dictSet key v l) = some v := by
  intro l
  induction l with
  | nil => simp [dictGet, dictSet]
  | cons p rest ih =>
    by_cases h : p.1 = key <;> simp [dictGet, dictSet, h, ih]

lemma dictGet_eq_none (key : String) :
    ∀ l, key ∉ l.map (·.1) → dictGet key l = none := by
  intro l
  induction l with
  | nil => simp [dictGet]
  | cons p rest ih =>
    intro h
    rw [List.map_cons, List.mem_cons] at h
    push_neg at h
    obtain ⟨h1, h2⟩ := h
    have hp : p.1 ≠ key := fun hh => h1 hh.symm
    simp [dictGet, hp, ih h2]

lemma dictGet_dictPop_self (key : String) :
    ∀ l, (l.map (·.1)).Nodup → dictGet key (dictPop key l) = none := by
  intro l
  induction l with
  | nil => intro _; simp [dictGet, dictPop]
  | cons p rest ih =>
    intro hnd
    simp at hnd
    by_cases h : p.1 = key
    · simp [dictPop, h]
      apply dictGet_eq_none
      subst h
      simpa using hnd.1
    · simp [dictPop, h, dictGet, ih hnd.2]

/-- One argument tuple of a `MessageBuffer.add` call. -/
structure AddInput where
  body : String
  messageSid : String
  profileName : Option String
  time : ℤ
deriving Repr, DecidableEq

/-- A sequence of `add` calls for one key (keeping only the buffer state). -/
def addList (cb : FlushCallback) (mb : MessageBuffer) (phone : String) :
    List AddInput → MessageBuffer
  | [] => mb
  | i :: rest =>
    addList cb
      (MessageBuffer.add cb mb phone i.body i.messageSid i.profileName i.time).1
      phone rest

/-- The most recently seen truthy (non-None, non-empty) metadata value of a
list of per-call profile names. -/
def lastTruthy (metas : List (Option String)) : Option String :=
  metas.foldl (fun acc p => if pyTruthy p then p else acc) none

lemma flushLead_emits (cb : FlushCallback) (mb : MessageBuffer) (phone : String)
    (lb : LeadBuffer) (hlb : dictGet phone mb.buffers = some lb)
    (m0 : BufferedMessage) (rest : List BufferedMessage)
    (hmsg : lb.messages = m0 :: rest) :
    (mb.flushLead cb phone).2.1 =
      some ⟨phone, String.intercalate mb.separator (lb.messages.map (·.body)),
        m0.messageSid, lb.profileName⟩ ∧
    (mb.flushLead cb phone).1.buffers = dictPop phone mb.buffers := by
  unfold MessageBuffer.flushLead
  rw [hlb, hmsg]
  rcases hcb : cb phone (String.intercalate mb.separator
      (m0.body :: rest.map (·.body))) m0.messageSid lb.profileName with u | e <;>
    simp [hcb, hmsg]

lemma flushLead_pops (cb : FlushCallback) (mb : MessageBuffer) (phone : String)
    (lb : LeadBuffer) (hlb : dictGet phone mb.buffers = some lb) :
    (mb.flushLead cb phone).1.buffers = dictPop phone mb.buffers := by
  unfold MessageBuffer.flushLead
  rw [hlb]
  cases hm : lb.messages with
  | nil => simp [hm]
  | cons m0 r =>
    rcases hcb : cb phone (String.intercalate mb.separator
        (m0.body :: r.map (·.body))) m0.messageSid lb.profileName with u | e <;>
      simp [hm, hcb]

/-- The group state produced by an `add` that appends to an existing group. -/
def updatedLead (lb : LeadBuffer) (i : AddInput) : LeadBuffer :=
  { lb with
    messages := lb.messages ++ [⟨i.body, i.messageSid, i.time⟩]
    profileName := if pyTruthy i.profileName then i.profileName
      else lb.profileName }

lemma add_existing (cb : FlushCallback) (mb : MessageBuffer) (phone : String)
    (i : AddInput) (lb : LeadBuffer)
    (hlb : dictGet phone mb.buffers = some lb)
    (hlen : lb.messages.length + 1 < mb.maxMessages) :
    (MessageBuffer.add cb mb phone i.body i.messageSid i.profileName i.time).1 =
      { mb with buffers := dictSet phone (updatedLead lb i) mb.buffers } ∧
    (MessageBuffer.add cb mb phone i.body i.messageSid i.profileName i.time).2
      = (none, none) := by
  unfold MessageBuffer.add
  rw [hlb]
  have hcond : ¬ (mb.maxMessages ≤ lb.messages.length + 1) := by omega
  by_cases ht : pyTruthy i.profileName = true
  · simp [ht, hcond, updatedLead]
  · simp at ht
    simp [ht, hcond, updatedLead]

/-- The group state produced by an `add` for a key with no live group. -/
def freshLead (phone : String) (i : AddInput) : LeadBuffer :=
  ⟨phone, i.profileName, [⟨i.body, i.messageSid, i.time⟩], i.time⟩

lemma add_fresh (cb : FlushCallback) (mb : MessageBuffer) (phone : String)
    (i : AddInput) (hlb : dictGet phone mb.buffers = none)
    (hlen : 1 < mb.maxMessages) :
    (MessageBuffer.add cb mb phone i.body i.messageSid i.profileName i.time).1 =
      { mb with buffers := dictSet phone (freshLead phone i) mb.buffers } ∧
    (MessageBuffer.add cb mb phone i.body i.messageSid i.profileName i.time).2
      = (none, none) := by
  unfold MessageBuffer.add
  rw [hlb]
  have hcond : ¬ (mb.maxMessages ≤ 0 + 1) := by omega
  by_cases ht : pyTruthy i.profileName = true
  · simp [ht, hcond, freshLead]
  · simp at ht
    simp [ht, hcond, freshLead]

lemma addList_spec (cb : FlushCallback) (phone : String)
    (inputs : List AddInput) :
    ∀ (mb : MessageBuffer) (lb : LeadBuffer),
    dictGet phone mb.buffers = some lb →
    lb.messages.length + inputs.length < mb.maxMessages →
    ∃ lb2, dictGet phone (addList cb mb phone inputs).buffers = some lb2 ∧
      (addList cb mb phone inputs).maxMessages = mb.maxMessages ∧
      lb2.messages = lb.messages ++
        inputs.map (fun i => ⟨i.body, i.messageSid, i.time⟩) ∧
      lb2.profileName = inputs.foldl
        (fun acc i => if pyTruthy i.profileName then i.profileName else acc)
        lb.profileName ∧
      lb2.phone = lb.phone ∧ lb2.createdAt = lb.createdAt := by
  induction inputs with
  | nil =>
    intro mb lb hlb hlen
    exact ⟨lb, hlb, rfl, by simp, rfl, rfl, rfl⟩
  | cons i rest ih =>
    intro mb lb hlb hlen
    simp only [List.length_cons] at hlen
    obtain ⟨heq, _⟩ := add_existing cb mb phone i lb hlb (by omega)
    simp only [addList]
    rw [heq]
    have hlb2 : dictGet phone (dictSet phone (updatedLead lb i) mb.buffers) =
        some (updatedLead lb i) := dictGet_dictSet_self _ _ _
    have hlen2 : (updatedLead lb i).messages.length + rest.length <
        mb.maxMessages := by
      simp [updatedLead]
      omega
    obtain ⟨lb2, h1, h2, h3, h4, h5, h6⟩ := ih
      { mb with buffers := dictSet phone (updatedLead lb i) mb.buffers }
      (updatedLead lb i) hlb2 hlen2
    refine ⟨lb2, h1, h2, ?_, ?_, ?_, ?_⟩
    · rw [h3]
      simp [updatedLead]
    · rw [h4]
      simp [updatedLead]
    · rw [h5]
      simp [updatedLead]
    · rw [h6]
      simp [updatedLead]

lemma foldl_truthy_congr (inputs : List AddInput) :
    ∀ a b, (∃ i ∈ inputs, pyTruthy i.profileName = true) →
    inputs.foldl
      (fun acc i => if pyTruthy i.profileName then i.profileName else acc) a =
    inputs.foldl
      (fun acc i => if pyTruthy i.profileName then i.profileName else acc) b := by
  induction inputs with
  | nil => intro a b h; simp at h
  | cons p rest ih =>
    intro a b h
    by_cases hp : pyTruthy p.profileName = true
    · simp [List.foldl_cons, hp]
    · simp at hp
      simp [List.foldl_cons, hp]
      apply ih
      rcases h with ⟨q, hq, hqt⟩
      rcases List.mem_cons.mp hq with rfl | hmem
      · rw [hqt] at hp; cases hp
      · exact ⟨q, hmem, hqt⟩

lemma addList_fresh_group (cb : FlushCallback) (mb : MessageBuffer)
    (phone : String) (i0 : AddInput) (rest : List AddInput)
    (hnone : dictGet phone mb.buffers = none)
    (hlen : (i0 :: rest).length < mb.maxMessages) :
    ∃ lb2, dictGet phone (addList cb mb phone (i0 :: rest)).buffers = some lb2 ∧
      lb2.messages = (i0 :: rest).map (fun i => ⟨i.body, i.messageSid, i.time⟩) ∧
      ((∃ p ∈ (i0 :: rest).map (·.profileName), pyTruthy p = true) →
        lb2.profileName = lastTruthy ((i0 :: rest).map (·.profileName))) := by
  simp only [List.length_cons] at hlen
  obtain ⟨heq, _⟩ := add_fresh cb mb phone i0 hnone (by omega)
  simp only [addList]
  rw [heq]
  have hlb2 : dictGet phone (dictSet phone (freshLead phone i0) mb.buffers) =
      some (freshLead phone i0) := dictGet_dictSet_self _ _ _
  have hlen2 : (freshLead phone i0).messages.length + rest.length <
      mb.maxMessages := by
    simp [freshLead]
    omega
  obtain ⟨lb2, h1, h2, h3, h4, h5, h6⟩ := addList_spec cb phone rest
    { mb with buffers := dictSet phone (freshLead phone i0) mb.buffers }
    (freshLead phone i0) hlb2 hlen2
  refine ⟨lb2, h1, ?_, ?_⟩
  · rw [h3]
    simp [freshLead]
  · intro hex
    rw [h4]
    simp only [freshLead]
    unfold lastTruthy
    rw [List.map_cons, List.foldl_cons, List.foldl_map]
    by_cases hp : pyTruthy i0.profileName = true
    · simp [hp]
    · simp at hp
      simp [hp]
      apply foldl_truthy_congr
      rcases hex with ⟨q, hq, hqt⟩
      rw [List.map_cons, List.mem_cons] at hq
      rcases hq with rfl | hmem
      · rw [hqt] at hp; cases hp
      · rcases List.mem_map.mp hmem with ⟨j, hj, rfl⟩
        exact ⟨j, hj, hqt⟩

/-- C6: flushing a non-empty group emits exactly one unit carrying the
buffered bodies joined with the separator in arrival order, the first
event's SID and the group's profile name, and deletes the group entry; a
group built by a run of `add` calls holds the events in arrival order with
the most recently seen truthy profile name; and an `add` for a key with no
live group (e.g. right after a flush) starts a brand-new single-message
group. -/
theorem debounce_flush_semantics :
    (∀ (cb : FlushCallback) (mb : MessageBuffer) (phone : String)
        (lb : LeadBuffer) (m0 : BufferedMessage) (rest : List BufferedMessage),
      dictGet phone mb.buffers = some lb → lb.messages = m0 :: rest →
      (mb.flushLead cb phone).2.1 = some ⟨phone,
        String.intercalate mb.separator (lb.messages.map (·.body)),
        m0.messageSid, lb.profileName⟩ ∧
      ((mb.buffers.map (·.1)).Nodup →
        dictGet phone (mb.flushLead cb phone).1.buffers = none))
    ∧ (∀ (cb : FlushCallback) (mb : MessageBuffer) (phone : String)
        (i0 : AddInput) (rest : List AddInput),
      dictGet phone mb.buffers = none →
      (i0 :: rest).length < mb.maxMessages →
      ∃ lb2, dictGet phone (addList cb mb phone (i0 :: rest)).buffers
          = some lb2 ∧
        lb2.messages =
          (i0 :: rest).map (fun i => ⟨i.body, i.messageSid, i.time⟩) ∧
        ((∃ p ∈ (i0 :: rest).map (·.profileName), pyTruthy p = true) →
          lb2.profileName = lastTruthy ((i0 :: rest).map (·.profileName))))
    ∧ (∀ (cb : FlushCallback) (mb : MessageBuffer) (phone : String)
        (i : AddInput),
      dictGet phone mb.buffers = none → 1 < mb.maxMessages →
      ∃ lb2, dictGet phone
          (MessageBuffer.add cb mb phone i.body i.messageSid i.profileName
            i.time).1.buffers = some lb2 ∧
        lb2.messages = [⟨i.body, i.messageSid, i.time⟩] ∧
        lb2.profileName = i.profileName) := by
  refine ⟨?_, addList_fresh_group, ?_⟩
  · intro cb mb phone lb m0 rest hlb hmsg
    have he := flushLead_emits cb mb phone lb hlb m0 rest hmsg
    refine ⟨he.1, fun hnd => ?_⟩
    rw [he.2]
    exact dictGet_dictPop_self phone mb.buffers hnd
  · intro cb mb phone i hnone hmax
    obtain ⟨heq, _⟩ := add_fresh cb mb phone i hnone hmax
    rw [heq]
    exact ⟨freshLead phone i, dictGet_dictSet_self _ _ _, rfl, rfl⟩

/-- A flush callback that always succeeds, and the C6 burst scenario. -/
def c6cb : FlushCallback := fun _ _ _ _ => Except.ok ()

def c6mb : MessageBuffer :=
  { bufferSeconds := seconds 5, maxMessages := 10, separator := " " }

def c6inputs : List AddInput :=
  [⟨"Hi", "s1", none, 0⟩, ⟨"I saw your ad", "s2", some "Ana", 1000000⟩,
   ⟨"How much does it cost?", "s3", none, 2000000⟩]

def c6mb3 : MessageBuffer := addList c6cb c6mb "p1" c6inputs

def c6Lead : LeadBuffer :=
  ⟨"p1", some "Ana",
   [⟨"Hi", "s1", 0⟩, ⟨"I saw your ad", "s2", 1000000⟩,
    ⟨"How much does it cost?", "s3", 2000000⟩], 0⟩

/-- Witness for C6: after three rapid `add` calls the group holds all three
messages in order with the truthy profile name, a flush emits exactly their
concatenation with the first SID and deletes the group, and a subsequent
`add` starts a fresh group. -/
theorem debounce_flush_semantics_witness :
    ((c6mb3.flushLead c6cb "p1").2.1 = some ⟨"p1",
      String.intercalate c6mb3.separator (c6Lead.messages.map (·.body)),
      (⟨"Hi", "s1", 0⟩ : BufferedMessage).messageSid, c6Lead.profileName⟩)
    ∧ dictGet "p1" (c6mb3.flushLead c6cb "p1").1.buffers = none
    ∧ (∃ lb2, dictGet "p1" (addList c6cb c6mb "p1"
          (⟨"Hi", "s1", none, 0⟩ :: [⟨"I saw your ad", "s2", some "Ana", 1000000⟩,
            ⟨"How much does it cost?", "s3", none, 2000000⟩])).buffers = some lb2 ∧
        lb2.messages = ((⟨"Hi", "s1", none, 0⟩ :
            AddInput) :: [⟨"I saw your ad", "s2", some "Ana", 1000000⟩,
            ⟨"How much does it cost?", "s3", none, 2000000⟩]).map
          (fun i => ⟨i.body, i.messageSid, i.time⟩) ∧
        ((∃ p ∈ ((⟨"Hi", "s1", none, 0⟩ :
            AddInput) :: [⟨"I saw your ad", "s2", some "Ana", 1000000⟩,
            ⟨"How much does it cost?", "s3", none, 2000000⟩]).map (·.profileName),
            pyTruthy p = true) →
          lb2.profileName = lastTruthy (((⟨"Hi", "s1", none, 0⟩ :
            AddInput) :: [⟨"I saw your ad", "s2", some "Ana", 1000000⟩,
            ⟨"How much does it cost?", "s3", none, 2000000⟩]).map (·.profileName))))
    ∧ (∃ lb2, dictGet "p1" (MessageBuffer.add c6cb c6mb "p1" "hello" "s9"
          none 9000000).1.buffers = some lb2 ∧
        lb2.messages = [⟨"hello", "s9", 9000000⟩] ∧ lb2.profileName = none) :=
  ⟨(debounce_flush_semantics.1 c6cb c6mb3 "p1" c6Lead ⟨"Hi", "s1", 0⟩
      [⟨"I saw your ad", "s2", 1000000⟩, ⟨"How much does it cost?", "s3", 2000000⟩]
      (by decide) (by decide)).1,
   (debounce_flush_semantics.1 c6cb c6mb3 "p1" c6Lead ⟨"Hi", "s1", 0⟩
      [⟨"I saw your ad", "s2", 1000000⟩, ⟨"How much does it cost?", "s3", 2000000⟩]
      (by decide) (by decide)).2 (by decide),
   debounce_flush_semantics.2.1 c6cb c6mb "p1" ⟨"Hi", "s1", none, 0⟩
      [⟨"I saw your ad", "s2", some "Ana", 1000000⟩,
       ⟨"How much does it cost?", "s3", none, 2000000⟩] (by decide) (by decide),
   debounce_flush_semantics.2.2 c6cb c6mb "p1" ⟨"hello", "s9", none, 9000000⟩
      (by decide) (by decide)⟩

/-- The outcome `_flush_lead` obtains from the callback on one group:
`none` when the group is empty (no callback is made) or the callback
returns normally, `some e` when the callback raises `e`.  The callback
arguments are exactly those `_flush_lead` passes: the bodies joined by the
separator, the first message's SID, and the group's profile name. -/
def groupFlushError (cb : FlushCallback) (sep : String)
    (phone : String) (lb : LeadBuffer) : Option String :=
  match lb.messages with
  | [] => none
  | firstMsg :: _ =>
    match cb phone (String.intercalate sep (lb.messages.map (·.body)))
        firstMsg.messageSid lb.profileName with
    | .ok _ => none
    | .error e => some e

lemma flushLead_run (cb : FlushCallback) (mb : MessageBuffer)
    (phone : String) (lb : LeadBuffer)
    (hlb : dictGet phone mb.buffers = some lb) :
    (mb.flushLead cb phone).1.buffers = dictPop phone mb.buffers ∧
    (mb.flushLead cb phone).1.separator = mb.separator ∧
    (mb.flushLead cb phone).2.2 = groupFlushError cb mb.separator phone lb := by
  unfold MessageBuffer.flushLead groupFlushError
  rw [hlb]
  cases hm : lb.messages with
  | nil => simp [hm]
  | cons m0 r =>
    rcases hcb : cb phone (String.intercalate mb.separator
        (m0.body :: r.map (·.body))) m0.messageSid lb.profileName with u | e <;>
      simp [hm, hcb]

lemma flushAllFrom_error_at :
    ∀ (pre : List (String × LeadBuffer)) (cb : FlushCallback)
      (mb : MessageBuffer) (phone : String) (lb : LeadBuffer)
      (post : List (String × LeadBuffer)) (e : String),
      mb.buffers = pre ++ (phone, lb) :: post →
      (∀ p ∈ pre, groupFlushError cb mb.separator p.1 p.2 = none) →
      groupFlushError cb mb.separator phone lb = some e →
      (MessageBuffer.flushAllFrom cb mb (mb.buffers.map (·.1))).2.2
        = some e := by
  intro pre
  induction pre with
  | nil =>
    intro cb mb phone lb post e hbuf hpre herr
    rw [List.nil_append] at hbuf
    have hget : dictGet phone mb.buffers = some lb := by
      rw [hbuf]; simp [dictGet]
    have hrun := flushLead_run cb mb phone lb hget
    have herr2 : (mb.flushLead cb phone).2.2 = some e := by
      rw [hrun.2.2, herr]
    rw [hbuf]
    simp only [List.map_cons]
    unfold MessageBuffer.flushAllFrom
    simp [hget, herr2]
  | cons p0 pre ih =>
    intro cb mb phone lb post e hbuf hpre herr
    have hbuf' : mb.buffers = p0 :: (pre ++ (phone, lb) :: post) := by
      rw [hbuf, List.cons_append]
    have hget : dictGet p0.1 mb.buffers = some p0.2 := by
      rw [hbuf']; simp [dictGet]
    have hrun := flushLead_run cb mb p0.1 p0.2 hget
    have hpop : dictPop p0.1 mb.buffers = pre ++ (phone, lb) :: post := by
      rw [hbuf']; simp [dictPop]
    have hstate : (mb.flushLead cb p0.1).1.buffers
        = pre ++ (phone, lb) :: post := by rw [hrun.1, hpop]
    have herr0 : (mb.flushLead cb p0.1).2.2 = none := by
      rw [hrun.2.2]
      exact hpre p0 (List.mem_cons_self _ _)
    have hih := ih cb (mb.flushLead cb p0.1).1 phone lb post e hstate
      (fun p hp => by
        rw [hrun.2.1]
        exact hpre p (List.mem_cons_of_mem _ hp))
      (by rw [hrun.2.1]; exact herr)
    rw [hstate] at hih
    rw [hbuf, List.cons_append]
    simp only [List.map_cons]
    unfold MessageBuffer.flushAllFrom
    simpa [hget, herr0] using hih

/-- C7: a callback error during `flush_all` propagates to its caller, for an
erroring group at any position in the buffer map: whenever every group
before it flushes cleanly and its own callback raises `e`, `flush_all`
raises `e` (and `groupFlushError` is exactly the error `_flush_lead` raises
on the group).  The timer-driven `_scheduled_flush`, by contrast, returns a
plain buffer state — it either performed the flush (dropping any callback
error) or found no group; even when the callback errored, the flushed group
is still deleted.  `scheduledFlush`'s type has no error channel at all,
mirroring the `try/except` that swallows callback errors in the background
task. -/
theorem flushAll_propagates_timer_swallows :
    (∀ (cb : FlushCallback) (mb : MessageBuffer)
        (pre : List (String × LeadBuffer)) (phone : String) (lb : LeadBuffer)
        (post : List (String × LeadBuffer)) (e : String),
      mb.buffers = pre ++ (phone, lb) :: post →
      (∀ p ∈ pre, groupFlushError cb mb.separator p.1 p.2 = none) →
      groupFlushError cb mb.separator phone lb = some e →
      (MessageBuffer.flushAll cb mb).2.2 = some e)
    ∧ (∀ (cb : FlushCallback) (mb : MessageBuffer) (phone : String)
        (lb : LeadBuffer),
      dictGet phone mb.buffers = some lb →
      (mb.flushLead cb phone).2.2 = groupFlushError cb mb.separator phone lb)
    ∧ (∀ (cb : FlushCallback) (mb : MessageBuffer) (phone : String),
      MessageBuffer.scheduledFlush cb mb phone =
        ((mb.flushLead cb phone).1, (mb.flushLead cb phone).2.1) ∨
      MessageBuffer.scheduledFlush cb mb phone = (mb, none))
    ∧ (∀ (cb : FlushCallback) (mb : MessageBuffer) (phone : String)
        (lb : LeadBuffer),
      dictGet phone mb.buffers = some lb →
      (mb.buffers.map (·.1)).Nodup →
      dictGet phone (MessageBuffer.scheduledFlush cb mb phone).1.buffers
        = none) := by
  refine ⟨?_, ?_, ?_, ?_⟩
  · intro cb mb pre phone lb post e hbuf hpre herr
    have h := flushAllFrom_error_at pre cb mb phone lb post e hbuf hpre herr
    unfold MessageBuffer.flushAll
    exact h
  · intro cb mb phone lb hlb
    exact (flushLead_run cb mb phone lb hlb).2.2
  · intro cb mb phone
    unfold MessageBuffer.scheduledFlush
    by_cases h : (dictGet phone mb.buffers).isSome <;> simp [h]
  · intro cb mb phone lb hlb hnd
    unfold MessageBuffer.scheduledFlush
    rw [hlb]
    have hp := flushLead_pops cb mb phone lb hlb
    simp only [Option.isSome_some, if_true, hp]
    exact dictGet_dictPop_self phone mb.buffers hnd

/-- A flush callback that always raises, and a buffer with one live group. -/
def c7cb : FlushCallback := fun _ _ _ _ => Except.error "cb down"

def c7Lead : LeadBuffer := ⟨"p1", none, [⟨"hello", "s1", 0⟩], 0⟩

def c7mb : MessageBuffer :=
  { bufferSeconds := seconds 5, maxMessages := 10, separator := " ",
    buffers := [("p1", c7Lead)] }

/-- A flush callback that raises only for the second group's phone. -/
def c7cb2 : FlushCallback := fun phone _ _ _ =>
  if phone = "p2" then Except.error "cb down" else Except.ok ()

def c7Lead2 : LeadBuffer := ⟨"p2", some "Bo", [⟨"hey", "s2", 0⟩], 0⟩

/-- A buffer with two live groups; only the second one's callback raises. -/
def c7mb2 : MessageBuffer :=
  { bufferSeconds := seconds 5, maxMessages := 10, separator := " ",
    buffers := [("p1", c7Lead), ("p2", c7Lead2)] }

/-- Witness for C7: with two live groups of which only the second one's
callback raises, `flush_all` surfaces that error even though the erroring
group is not the first one flushed; the timer-driven flush still deletes
its group and returns normally. -/
theorem flushAll_propagates_timer_swallows_witness :
    (MessageBuffer.flushAll c7cb2 c7mb2).2.2 = some "cb down" ∧
    dictGet "p1" (MessageBuffer.scheduledFlush c7cb c7mb "p1").1.buffers
      = none :=
  ⟨flushAll_propagates_timer_swallows.1 c7cb2 c7mb2 [("p1", c7Lead)] "p2"
      c7Lead2 [] "cb down" (by decide) (by decide) (by decide),
   flushAll_propagates_timer_swallows.2.2.2 c7cb c7mb "p1" c7Lead
      (by decide) (by decide)⟩

/-! ## Operation model of the work queue, and claim C8 -/

/-- One operation against an InMemoryQueue instance; `enqueue` carries the
constructor arguments of a default-built message (the only way the
repository's call sites build them). -/

inductive QOp where
  | enqueue (id phone body messageSid : String) (profileName : Option String)
      (maxRetries : Nat)
  | dequeue
  | complete (id : String)
  | fail (id : String) (error : String)
  | retryDeadLetter (id : String)
deriving Repr, DecidableEq

def QOp.apply (q : QueueState) (op : QOp) (now : ℤ) : QueueState :=
  match op with
  | .enqueue id phone body sid pn mr =>
    InMemoryQueue.enqueue q (newMessage id phone body sid pn mr now)
  | .dequeue => (InMemoryQueue.dequeue q now).1
  | .complete id => InMemoryQueue.complete q id now
  | .fail id err => InMemoryQueue.fail q id err now
  | .retryDeadLetter id => InMemoryQueue.retryDeadLetter q id now

/-- Well-formed use of the queue, as the repository's worker exercises it:
ids are enqueued at most once, and `complete` / `fail` are only called on
the message that was just dequeued (hence in PROCESSING status). -/
def WF (q : QueueState) : QOp → Prop
  | .enqueue id _ _ _ _ _ => msgGet id q.messages = none
  | .complete id => ∀ m, msgGet id q.messages = some m → m.status = .processing
  | .fail id _ => ∀ m, msgGet id q.messages = some m → m.status = .processing
  | _ => True

/-- Whether the operation is the manual dead-letter replay. -/
def QOp.isRetryDL : QOp → Bool
  | .retryDeadLetter _ => true
  | _ => false

/-- Queue states reachable from a fresh queue by well-formed operations at
nondecreasing times (the clock is the time of the last operation). -/
inductive Reach : QueueState → ℤ → Prop
  | init (t : ℤ) : Reach emptyQueue t
  | step {q : QueueState} {t : ℤ} (h : Reach q t) (op : QOp) (now : ℤ)
      (hle : t ≤ now) (hwf : WF q op) : Reach (QOp.apply q op now) now

/-- The status transitions allowed by the claimed monotone order
Pending → Processing and then Completed, Pending(retry) or DeadLetter. -/
def statusStep (a b : MessageStatus) : Prop :=
  a = b ∨ (a = .pending ∧ b = .processing) ∨
  (a = .processing ∧ b = .completed) ∨
  (a = .processing ∧ b = .pending) ∨
  (a = .processing ∧ b = .deadLetter)

instance (a b : MessageStatus) : Decidable (statusStep a b) := by
  unfold statusStep
  infer_instance

/-- Internal invariant of reachable queue states: the pending FIFO has no
duplicate ids and holds only PENDING messages, PROCESSING messages were
dequeued when due (so their schedule is in the past), and dead-letter ids
hold DEAD_LETTER messages. -/
def Inv (q : QueueState) (t : ℤ) : Prop :=
  q.pendingQueue.Nodup ∧
  (∀ id ∈ q.pendingQueue,
    ∃ m, msgGet id q.messages = some m ∧ m.status = .pending) ∧
  (∀ id m, msgGet id q.messages = some m → m.status = .processing →
    m.scheduledAt ≤ t) ∧
  (∀ id ∈ q.deadLetter,
    ∃ m, msgGet id q.messages = some m ∧ m.status = .deadLetter)

lemma Inv_mono (q : QueueState) (t now : ℤ) (h : Inv q t) (hle : t ≤ now) :
    Inv q now := by
  obtain ⟨h1, h2, h3, h4⟩ := h
  exact ⟨h1, h2, fun id m hm hp => le_trans (h3 id m hm hp) hle, h4⟩

lemma mem_setAdd_iff (id2 id : String) (s : List String) :
    id2 ∈ setAdd id s ↔ id2 ∈ s ∨ id2 = id := by
  unfold setAdd
  split
  · constructor
    · exact Or.inl
    · rintro (h | rfl)
      · exact h
      · assumption
  · simp

lemma mem_setDiscard (id2 id : String) (s : List String) :
    id2 ∈ setDiscard id s ↔ id2 ∈ s ∧ id2 ≠ id := by
  simp [setDiscard]

lemma nodup_concat (l : List String) (a : String) (h : l.Nodup) (ha : a ∉ l) :
    (l ++ [a]).Nodup := by
  simp [List.nodup_append, h, ha]

lemma retryDelays_getD_pos (i : Nat) (h : i ≤ 4) :
    0 < retryDelays.getD i 0 := by
  interval_cases i <;> decide

lemma emptyQueue_Inv (t : ℤ) : Inv emptyQueue t := by
  refine ⟨by simp [emptyQueue], ?_, ?_, ?_⟩ <;> simp [emptyQueue, msgGet]


lemma Inv_enqueue (q : QueueState) (now : ℤ) (id phone body sid : String)
    (pn : Option String) (mr : Nat)
    (hinv : Inv q now) (hfresh : msgGet id q.messages = none) :
    Inv (InMemoryQueue.enqueue q (newMessage id phone body sid pn mr now))
      now := by
  obtain ⟨h1, h2, h3, h4⟩ := hinv
  have hidq : id ∉ q.pendingQueue := by
    intro hmem
    obtain ⟨m, hm, _⟩ := h2 id hmem
    rw [hfresh] at hm
    cases hm
  unfold InMemoryQueue.enqueue
  refine ⟨?_, ?_, ?_, ?_⟩
  · simpa [newMessage] using nodup_concat _ _ h1 hidq
  · intro qid hq
    simp only [newMessage] at hq ⊢
    rcases List.mem_append.mp hq with hmem | hmem
    · obtain ⟨m, hm, hs⟩ := h2 qid hmem
      have hne : qid ≠ id := by
        intro rfl2
        subst rfl2
        rw [hfresh] at hm
        cases hm
      exact ⟨m, by rw [msgGet_msgSet_ne _ _ _ hne]; exact hm, hs⟩
    · simp at hmem
      subst hmem
      exact ⟨_, msgGet_msgSet_self _ _ _, rfl⟩
  · intro id2 m2 hm2 hp
    simp only [newMessage] at hm2
    by_cases he : id2 = id
    · subst he
      rw [msgGet_msgSet_self] at hm2
      cases hm2
      cases hp
    · rw [msgGet_msgSet_ne _ _ _ he] at hm2
      exact h3 id2 m2 hm2 hp
  · intro id2 hd
    obtain ⟨m, hm, hs⟩ := h4 id2 hd
    have hne : id2 ≠ id := by
      intro rfl2
      subst rfl2
      rw [hfresh] at hm
      cases hm
    simp only [newMessage]
    exact ⟨m, by rw [msgGet_msgSet_ne _ _ _ hne]; exact hm, hs⟩


lemma Inv_dequeue (q : QueueState) (now : ℤ) (hinv : Inv q now) :
    Inv ((InMemoryQueue.dequeue q now).1) now := by
  obtain ⟨h1, h2, h3, h4⟩ := hinv
  cases hq : q.pendingQueue with
  | nil =>
    simp only [InMemoryQueue.dequeue, hq]
    exact ⟨by rw [hq]; simp, h2, h3, h4⟩
  | cons id rest =>
    rw [hq] at h1 h2
    have h1r : rest.Nodup := h1.of_cons
    have hidr : id ∉ rest := (List.nodup_cons.mp h1).1
    cases hm : msgGet id q.messages with
    | none =>
      simp only [InMemoryQueue.dequeue, hq, hm]
      refine ⟨h1r, ?_, h3, h4⟩
      intro qid hmem
      exact h2 qid (by simp [hmem])
    | some m =>
      by_cases hsch : now < m.scheduledAt
      · simp only [InMemoryQueue.dequeue, hq, hm, if_pos hsch]
        refine ⟨nodup_concat _ _ h1r hidr, ?_, h3, h4⟩
        intro qid hmem
        rcases List.mem_append.mp hmem with hmem2 | hmem2
        · exact h2 qid (by simp [hmem2])
        · simp at hmem2
          subst hmem2
          exact h2 qid (by simp)
      · simp only [InMemoryQueue.dequeue, hq, hm, if_neg hsch]
        refine ⟨h1r, ?_, ?_, ?_⟩
        · intro qid hmem
          have hne : qid ≠ id := fun hqe => hidr (hqe ▸ hmem)
          obtain ⟨m2, hm2, hs2⟩ := h2 qid (by simp [hmem])
          exact ⟨m2, by simp only [msgGet_msgSet_ne _ _ _ hne]; exact hm2, hs2⟩
        · intro id2 m2 hm2 hp
          by_cases he : id2 = id
          · subst he
            rw [msgGet_msgSet_self] at hm2
            cases hm2
            show m.scheduledAt ≤ now
            omega
          · rw [msgGet_msgSet_ne _ _ _ he] at hm2
            exact h3 id2 m2 hm2 hp
        · intro id2 hd
          obtain ⟨m2, hm2, hs2⟩ := h4 id2 hd
          have hne : id2 ≠ id := by
            intro rfl2
            subst rfl2
            obtain ⟨m3, hm3, hs3⟩ := h2 id2 (by simp)
            rw [hm] at hm3
            cases hm3
            rw [hm] at hm2
            cases hm2
            rw [hs3] at hs2
            cases hs2
          exact ⟨m2, by simp only [msgGet_msgSet_ne _ _ _ hne]; exact hm2, hs2⟩


lemma Inv_complete (q : QueueState) (now : ℤ) (id : String)
    (hinv : Inv q now)
    (hwf : ∀ m, msgGet id q.messages = some m → m.status = .processing) :
    Inv (InMemoryQueue.complete q id now) now := by
  obtain ⟨h1, h2, h3, h4⟩ := hinv
  cases hm : msgGet id q.messages with
  | none =>
    simp only [InMemoryQueue.complete, hm]
    exact ⟨h1, h2, h3, h4⟩
  | some m =>
    have hms := hwf m hm
    simp only [InMemoryQueue.complete, hm]
    refine ⟨h1, ?_, ?_, ?_⟩
    · intro qid hmem
      obtain ⟨m2, hm2, hs2⟩ := h2 qid hmem
      have hne : qid ≠ id := by
        intro rfl2
        subst rfl2
        rw [hm] at hm2
        cases hm2
        rw [hs2] at hms
        cases hms
      exact ⟨m2, by simp only [msgGet_msgSet_ne _ _ _ hne]; exact hm2, hs2⟩
    · intro id2 m2 hm2 hp
      by_cases he : id2 = id
      · subst he
        rw [msgGet_msgSet_self] at hm2
        cases hm2
        cases hp
      · rw [msgGet_msgSet_ne _ _ _ he] at hm2
        exact h3 id2 m2 hm2 hp
    · intro id2 hd
      obtain ⟨m2, hm2, hs2⟩ := h4 id2 hd
      have hne : id2 ≠ id := by
        intro rfl2
        subst rfl2
        rw [hm] at hm2
        cases hm2
        rw [hs2] at hms
        cases hms
      exact ⟨m2, by simp only [msgGet_msgSet_ne _ _ _ hne]; exact hm2, hs2⟩

lemma Inv_fail (q : QueueState) (now : ℤ) (id err : String)
    (hinv : Inv q now)
    (hwf : ∀ m, msgGet id q.messages = some m → m.status = .processing) :
    Inv (InMemoryQueue.fail q id err now) now := by
  obtain ⟨h1, h2, h3, h4⟩ := hinv
  cases hm : msgGet id q.messages with
  | none =>
    simp only [InMemoryQueue.fail, hm]
    exact ⟨h1, h2, h3, h4⟩
  | some m =>
    have hms := hwf m hm
    have hidq : id ∉ q.pendingQueue := by
      intro hmem
      obtain ⟨m2, hm2, hs2⟩ := h2 id hmem
      rw [hm] at hm2
      cases hm2
      rw [hs2] at hms
      cases hms
    have hiddl : id ∉ q.deadLetter := by
      intro hmem
      obtain ⟨m2, hm2, hs2⟩ := h4 id hmem
      rw [hm] at hm2
      cases hm2
      rw [hs2] at hms
      cases hms
    simp only [InMemoryQueue.fail, hm]
    by_cases hr : m.retryCount + 1 ≤ m.maxRetries
    · rw [if_pos hr]
      refine ⟨?_, ?_, ?_, ?_⟩
      · exact nodup_concat _ _ h1 hidq
      · intro qid hmem
        rcases List.mem_append.mp hmem with hmem2 | hmem2
        · obtain ⟨m2, hm2, hs2⟩ := h2 qid hmem2
          have hne : qid ≠ id := fun hqe => hidq (hqe ▸ hmem2)
          exact ⟨m2, by simp only [msgGet_msgSet_ne _ _ _ hne]; exact hm2, hs2⟩
        · simp at hmem2
          subst hmem2
          exact ⟨_, msgGet_msgSet_self _ _ _, rfl⟩
      · intro id2 m2 hm2 hp
        by_cases he : id2 = id
        · subst he
          rw [msgGet_msgSet_self] at hm2
          cases hm2
          cases hp
        · rw [msgGet_msgSet_ne _ _ _ he] at hm2
          exact h3 id2 m2 hm2 hp
      · intro id2 hd
        obtain ⟨m2, hm2, hs2⟩ := h4 id2 hd
        have hne : id2 ≠ id := fun hqe => hiddl (hqe ▸ hd)
        exact ⟨m2, by simp only [msgGet_msgSet_ne _ _ _ hne]; exact hm2, hs2⟩
    · rw [if_neg hr]
      refine ⟨h1, ?_, ?_, ?_⟩
      · intro qid hmem
        obtain ⟨m2, hm2, hs2⟩ := h2 qid hmem
        have hne : qid ≠ id := fun hqe => hidq (hqe ▸ hmem)
        exact ⟨m2, by simp only [msgGet_msgSet_ne _ _ _ hne]; exact hm2, hs2⟩
      · intro id2 m2 hm2 hp
        by_cases he : id2 = id
        · subst he
          rw [msgGet_msgSet_self] at hm2
          cases hm2
          cases hp
        · rw [msgGet_msgSet_ne _ _ _ he] at hm2
          exact h3 id2 m2 hm2 hp
      · intro id2 hd
        rcases (mem_setAdd_iff id2 id q.deadLetter).mp hd with hmem | rfl2
        · obtain ⟨m2, hm2, hs2⟩ := h4 id2 hmem
          have hne : id2 ≠ id := fun hqe => hiddl (hqe ▸ hmem)
          exact ⟨m2, by simp only [msgGet_msgSet_ne _ _ _ hne]; exact hm2, hs2⟩
        · subst rfl2
          exact ⟨_, msgGet_msgSet_self _ _ _, rfl⟩


lemma Inv_retryDeadLetter (q : QueueState) (now : ℤ) (id : String)
    (hinv : Inv q now) :
    Inv (InMemoryQueue.retryDeadLetter q id now) now := by
  obtain ⟨h1, h2, h3, h4⟩ := hinv
  by_cases hdl : id ∈ q.deadLetter
  · obtain ⟨m, hm, hms⟩ := h4 id hdl
    have hidq : id ∉ q.pendingQueue := by
      intro hmem
      obtain ⟨m2, hm2, hs2⟩ := h2 id hmem
      rw [hm] at hm2
      cases hm2
      rw [hs2] at hms
      cases hms
    simp only [InMemoryQueue.retryDeadLetter, if_pos hdl, hm]
    refine ⟨?_, ?_, ?_, ?_⟩
    · exact nodup_concat _ _ h1 hidq
    · intro qid hmem
      rcases List.mem_append.mp hmem with hmem2 | hmem2
      · obtain ⟨m2, hm2, hs2⟩ := h2 qid hmem2
        have hne : qid ≠ id := fun hqe => hidq (hqe ▸ hmem2)
        exact ⟨m2, by simp only [msgGet_msgSet_ne _ _ _ hne]; exact hm2, hs2⟩
      · simp at hmem2
        subst hmem2
        exact ⟨_, msgGet_msgSet_self _ _ _, rfl⟩
    · intro id2 m2 hm2 hp
      by_cases he : id2 = id
      · subst he
        rw [msgGet_msgSet_self] at hm2
        cases hm2
        cases hp
      · rw [msgGet_msgSet_ne _ _ _ he] at hm2
        exact h3 id2 m2 hm2 hp
    · intro id2 hd
      rw [mem_setDiscard] at hd
      obtain ⟨hmem, hne⟩ := hd
      obtain ⟨m2, hm2, hs2⟩ := h4 id2 hmem
      exact ⟨m2, by simp only [msgGet_msgSet_ne _ _ _ hne]; exact hm2, hs2⟩
  · simp only [InMemoryQueue.retryDeadLetter, if_neg hdl]
    exact ⟨h1, h2, h3, h4⟩

lemma Reach_Inv (q : QueueState) (t : ℤ) (h : Reach q t) : Inv q t := by
  induction h with
  | init t => exact emptyQueue_Inv t
  | step hr op now hle hwf ih =>
    have hinv := Inv_mono _ _ _ ih hle
    cases op with
    | enqueue id phone body sid pn mr =>
      exact Inv_enqueue _ _ _ _ _ _ _ _ hinv hwf
    | dequeue => exact Inv_dequeue _ _ hinv
    | complete id => exact Inv_complete _ _ _ hinv hwf
    | fail id err => exact Inv_fail _ _ _ _ hinv hwf
    | retryDeadLetter id => exact Inv_retryDeadLetter _ _ _ hinv


/-- C8 (amended): across every reachable, well-formed sequence of Enqueue,
Dequeue, Complete and Fail operations, each stored message's status moves
only along Pending → Processing and then to Completed, Pending(retry) or
DeadLetter, its `retry_count` never decreases, and its `scheduled_at` is
changed only by a Fail and only forward in time.  The claim's inclusion of
RetryDeadLetter is dropped: that operation resets `retry_count` to 0 and
moves DeadLetter back to Pending (see the counterexample). -/
theorem queue_monotonicity_amended (q : QueueState) (t : ℤ) (op : QOp) (now : ℤ)
    (hreach : Reach q t) (hwf : WF q op) (hle : t ≤ now)
    (hnotrdl : op.isRetryDL = false) :
    ∀ (id : String) (m m' : QueuedMessage),
    msgGet id q.messages = some m →
    msgGet id (QOp.apply q op now).messages = some m' →
    statusStep m.status m'.status ∧
    m.retryCount ≤ m'.retryCount ∧
    (m.scheduledAt ≠ m'.scheduledAt →
      (∃ error, op = QOp.fail id error) ∧ m.scheduledAt < m'.scheduledAt) := by
  have hinv := Inv_mono _ _ _ (Reach_Inv q t hreach) hle
  obtain ⟨h1, h2, h3, h4⟩ := hinv
  intro id m m' hm hm'
  cases op with
  | retryDeadLetter rid => simp [QOp.isRetryDL] at hnotrdl
  | enqueue eid phone body sid pn mr =>
    have hne : id ≠ eid := by
      intro rfl2
      subst rfl2
      rw [hwf] at hm
      cases hm
    simp only [QOp.apply, InMemoryQueue.enqueue, newMessage] at hm'
    rw [msgGet_msgSet_ne _ _ _ hne] at hm'
    rw [hm] at hm'
    cases hm'
    exact ⟨Or.inl rfl, le_refl _, fun hh => absurd rfl hh⟩
  | complete cid =>
    cases hmc : msgGet cid q.messages with
    | none =>
      simp only [QOp.apply, InMemoryQueue.complete, hmc] at hm'
      rw [hm] at hm'
      cases hm'
      exact ⟨Or.inl rfl, le_refl _, fun hh => absurd rfl hh⟩
    | some mc =>
      simp only [QOp.apply, InMemoryQueue.complete, hmc] at hm'
      by_cases he : id = cid
      · subst he
        rw [msgGet_msgSet_self] at hm'
        rw [hmc] at hm
        cases hm
        cases hm'
        have hs := hwf m hmc
        refine ⟨Or.inr (Or.inr (Or.inl ⟨hs, rfl⟩)), le_refl _, fun hh => absurd rfl hh⟩
      · rw [msgGet_msgSet_ne _ _ _ he] at hm'
        rw [hm] at hm'
        cases hm'
        exact ⟨Or.inl rfl, le_refl _, fun hh => absurd rfl hh⟩
  | dequeue =>
    cases hq : q.pendingQueue with
    | nil =>
      simp only [QOp.apply, InMemoryQueue.dequeue, hq] at hm'
      rw [hm] at hm'
      cases hm'
      exact ⟨Or.inl rfl, le_refl _, fun hh => absurd rfl hh⟩
    | cons did rest =>
      cases hmd : msgGet did q.messages with
      | none =>
        simp only [QOp.apply, InMemoryQueue.dequeue, hq, hmd] at hm'
        rw [hm] at hm'
        cases hm'
        exact ⟨Or.inl rfl, le_refl _, fun hh => absurd rfl hh⟩
      | some md =>
        by_cases hsch : now < md.scheduledAt
        · simp only [QOp.apply, InMemoryQueue.dequeue, hq, hmd,
            if_pos hsch] at hm'
          rw [hm] at hm'
          cases hm'
          exact ⟨Or.inl rfl, le_refl _, fun hh => absurd rfl hh⟩
        · simp only [QOp.apply, InMemoryQueue.dequeue, hq, hmd,
            if_neg hsch] at hm'
          by_cases he : id = did
          · subst he
            rw [msgGet_msgSet_self] at hm'
            rw [hmd] at hm
            cases hm
            cases hm'
            obtain ⟨m2, hm2, hs2⟩ := h2 id (by rw [hq]; simp)
            rw [hmd] at hm2
            cases hm2
            refine ⟨Or.inr (Or.inl ⟨hs2, rfl⟩), le_refl _,
              fun hh => absurd rfl hh⟩
          · rw [msgGet_msgSet_ne _ _ _ he] at hm'
            rw [hm] at hm'
            cases hm'
            exact ⟨Or.inl rfl, le_refl _, fun hh => absurd rfl hh⟩
  | fail fid ferr =>
    cases hmf : msgGet fid q.messages with
    | none =>
      simp only [QOp.apply, InMemoryQueue.fail, hmf] at hm'
      rw [hm] at hm'
      cases hm'
      exact ⟨Or.inl rfl, le_refl _, fun hh => absurd rfl hh⟩
    | some mf =>
      have hs := hwf mf hmf
      by_cases hr : mf.retryCount + 1 ≤ mf.maxRetries
      · simp only [QOp.apply, InMemoryQueue.fail, hmf, if_pos hr] at hm'
        by_cases he : id = fid
        · subst he
          rw [msgGet_msgSet_self] at hm'
          rw [hmf] at hm
          cases hm
          cases hm'
          have hsched : m.scheduledAt ≤ now := h3 id m hmf hs
          have hdelay : 0 < retryDelays.getD
              (min m.retryCount (retryDelays.length - 1)) 0 := by
            apply retryDelays_getD_pos
            simp [retryDelays, retryDelaySeconds]
          refine ⟨Or.inr (Or.inr (Or.inr (Or.inl ⟨hs, rfl⟩))), by simp, ?_⟩
          intro hh
          refine ⟨⟨ferr, rfl⟩, ?_⟩
          show m.scheduledAt < now + retryDelays.getD
            (min m.retryCount (retryDelays.length - 1)) 0
          omega
        · rw [msgGet_msgSet_ne _ _ _ he] at hm'
          rw [hm] at hm'
          cases hm'
          exact ⟨Or.inl rfl, le_refl _, fun hh => absurd rfl hh⟩
      · simp only [QOp.apply, InMemoryQueue.fail, hmf, if_neg hr] at hm'
        by_cases he : id = fid
        · subst he
          rw [msgGet_msgSet_self] at hm'
          rw [hmf] at hm
          cases hm
          cases hm'
          exact ⟨Or.inr (Or.inr (Or.inr (Or.inr ⟨hs, rfl⟩))), by simp,
            fun hh => absurd rfl hh⟩
        · rw [msgGet_msgSet_ne _ _ _ he] at hm'
          rw [hm] at hm'
          cases hm'
          exact ⟨Or.inl rfl, le_refl _, fun hh => absurd rfl hh⟩


def c8x0 : QueueState :=
  QOp.apply emptyQueue (QOp.enqueue "m1" "p" "b" "sid" none 0) 0
def c8x1 : QueueState := QOp.apply c8x0 QOp.dequeue 0
def c8x2 : QueueState := QOp.apply c8x1 (QOp.fail "m1" "boom") 0
def c8x3 : QueueState := QOp.apply c8x2 (QOp.retryDeadLetter "m1") 1

def c8xm1 : QueuedMessage :=
  { newMessage "m1" "p" "b" "sid" none 0 0 with status := .processing }

/-- C8 counterexample: a reachable well-formed sequence — enqueue with
`max_retries = 0`, dequeue, fail (dead-lettering the item at
`retry_count = 1`), then RetryDeadLetter — ends with `retry_count` back at
0 and status Pending, so under the claim's quantification over all five
operations both the retry-count monotonicity and the monotone status order
(DeadLetter terminal) are violated. -/
theorem queue_monotonicity_counterexample :
    Reach c8x3 1 ∧
    ((msgGet "m1" c8x1.messages).map (·.status) = some .processing) ∧
    ((msgGet "m1" c8x2.messages).map (fun m => (m.status, m.retryCount)) =
      some (.deadLetter, 1)) ∧
    ((msgGet "m1" c8x3.messages).map (fun m => (m.status, m.retryCount)) =
      some (.pending, 0)) := by
  refine ⟨?_, by decide, by decide, by decide⟩
  refine Reach.step (Reach.step (Reach.step (Reach.step (Reach.init 0)
        (QOp.enqueue "m1" "p" "b" "sid" none 0) 0 (le_refl 0)
        (by decide : msgGet "m1" emptyQueue.messages = none))
      QOp.dequeue 0 (le_refl 0) trivial)
    (QOp.fail "m1" "boom") 0 (le_refl 0) ?_)
    (QOp.retryDeadLetter "m1") 1 (by omega) trivial
  intro m hm
  have h2 : some c8xm1 = some m := by rw [← hm]; decide
  cases h2
  decide

def c8wMsg : QueuedMessage := newMessage "m1" "p" "b" "sid" none 5 0

def c8wq : QueueState :=
  QOp.apply emptyQueue (QOp.enqueue "m1" "p" "b" "sid" none 5) 0

def c8wMsg2 : QueuedMessage := { c8wMsg with status := .processing }

/-- Witness for C8: dequeuing the freshly enqueued message performs the
Pending → Processing step with retry count and schedule unchanged. -/
theorem queue_monotonicity_amended_witness :
    statusStep c8wMsg.status c8wMsg2.status ∧
    c8wMsg.retryCount ≤ c8wMsg2.retryCount ∧
    (c8wMsg.scheduledAt ≠ c8wMsg2.scheduledAt →
      (∃ error, QOp.dequeue = QOp.fail "m1" error) ∧
      c8wMsg.scheduledAt < c8wMsg2.scheduledAt) :=
  queue_monotonicity_amended c8wq 0 QOp.dequeue 0
    (Reach.step (Reach.init 0) (QOp.enqueue "m1" "p" "b" "sid" none 5) 0
      (le_refl 0) (by decide : msgGet "m1" emptyQueue.messages = none))
    trivial (le_refl 0) (by decide) "m1" c8wMsg c8wMsg2 (by decide) (by decide)

end GPDataV4
